import Mathlib

/-!
Verification of the OrangeSlice demo-catalog client.

The definitions below are a shallow embedding of the TypeScript source:

* `getFilteredDemos`, `matchesSearch` — the view filter of
  `src/components/UserInterface.tsx` (`getFilteredDemos`, lines 176-190).
* `enrichDemoTags` — the DemoTag subscription handler (the relationship
  enricher) of `UserInterface.tsx` lines 123-151 / `App.tsx` lines 143-173.
* `validateForm`, `handleSubmit`, `deleteDemo` — the administrator save and
  delete workflows of `App.tsx`, modelled as pure functions over an explicit
  remote state together with a schedule that says which remote call fails.
* `handleLogin` — the hard-coded credential check of the routed admin screen.

JavaScript strings are modelled as Lean `String`; the few places where the
source relies on JavaScript truthiness of a string (empty string is falsy)
are modelled by explicit emptiness tests.  `toLowerCase` is modelled by
mapping `Char.toLower` over the character list, and `trim() === ""` by
the test that every character is whitespace.
-/

/-- Demo item as mirrored by the client (nullable GraphQL fields become
`Option`). -/
structure DemoItem where
  id : String
  projectName : Option String
  githubLink : Option String
  projectLink : Option String
  imageUrl : Option String
  createdAt : String
  updatedAt : String
  deriving DecidableEq

/-- Tag as mirrored by the client. -/
structure TagItem where
  id : String
  name : String
  deriving DecidableEq

/-- Enriched DemoTag relationship as held in client state. -/
structure DemoTagItem where
  id : String
  demoId : String
  tagId : String
  tag : Option TagItem
  deriving DecidableEq

/-- Lower-cased character list of a string; models
`s.toLowerCase()` at the granularity the proofs need. -/
def lowerList (s : String) : List Char :=
  s.toList.map Char.toLower

/-- Substring test on character lists; models
JavaScript `hay.includes(needle)`. -/
def charsIncl (needle : List Char) : List Char → Bool
  | [] => List.isPrefixOf needle []
  | c :: rest => List.isPrefixOf needle (c :: rest) || charsIncl needle rest

/-- Search predicate of `getFilteredDemos`: models
`!searchTerm || (demo.projectName && demo.projectName.toLowerCase().includes(searchTerm.toLowerCase()))`,
including the falsiness of a `null` or empty `projectName`. -/
def matchesSearch (projectName : Option String) (searchTerm : String) : Bool :=
  (searchTerm == "") ||
    (match projectName with
     | none => false
     | some p => (!(p == "")) && charsIncl (lowerList searchTerm) (lowerList p))

/-- The view filter of `UserInterface.tsx` (`getFilteredDemos`). -/
def getFilteredDemos (demos : List DemoItem) (demoTags : List DemoTagItem)
    (searchTerm : String) (selectedFilterTags : List String) : List DemoItem :=
  demos.filter fun demo =>
    matchesSearch demo.projectName searchTerm &&
      ((selectedFilterTags.length == 0) ||
        selectedFilterTags.all fun filterTagId =>
          demoTags.any fun dt => (dt.demoId == demo.id) && (dt.tagId == filterTagId))

/-!
Relationship enricher.

The DemoTag subscription handler walks the pushed raw associations in order;
for each it issues a point lookup of the referenced tag.  A lookup can
return a tag, return a null payload, or throw (the throw is caught per item
and logged).  Only items whose lookup returned a tag are pushed to the
enriched list.
-/

/-- Raw DemoTag item as delivered by the subscription push. -/
structure DemoTagRaw where
  id : String
  demoId : String
  tagId : String
  deriving DecidableEq

/-- Backend Tag row (nullable name, as in the generated schema). -/
structure TagRecord where
  id : String
  name : Option String
  deriving DecidableEq

/-- Outcome of the `Tag.get` point lookup for one association. -/
inductive TagLookup where
  | found (tag : TagRecord)
  | nullData
  | err
  deriving DecidableEq

/-- Enrichment of a single raw association: a found tag yields the enriched
record (with `name || ""` defaulting), a null payload or a thrown lookup
yields nothing. -/
def enrichOne (lookup : String → TagLookup) (item : DemoTagRaw) : Option DemoTagItem :=
  match lookup item.tagId with
  | TagLookup.found tg =>
      some { id := item.id, demoId := item.demoId, tagId := item.tagId,
             tag := some { id := tg.id, name := tg.name.getD "" } }
  | TagLookup.nullData => none
  | TagLookup.err => none

/-- One step of the enrichment loop body (array push of the enriched
record when the lookup found a tag). -/
def enrichStep (lookup : String → TagLookup) (acc : List DemoTagItem)
    (item : DemoTagRaw) : List DemoTagItem :=
  match enrichOne lookup item with
  | some enriched => acc ++ [enriched]
  | none => acc

/-- The DemoTag subscription `next` handler: fold the push items through the
enrichment loop, starting from the empty array. -/
def enrichDemoTags (lookup : String → TagLookup) (items : List DemoTagRaw) :
    List DemoTagItem :=
  items.foldl (enrichStep lookup) []

/-!
Administrator save and delete workflows (`App.tsx`).

The remote data gateway is modelled by an explicit state (demo rows, demo-tag
rows, and a counter from which the backend mints fresh ids).  A workflow
invocation issues a sequence of remote calls; a schedule `Nat → CallOutcome`
says, for the k-th call of the invocation, whether it succeeds, succeeds
with a null item payload, or rejects with an error message.  A rejection is
the thrown exception of the source: control jumps to the enclosing catch.
-/

/-- The four string form fields of the demo form. -/
structure DemoFields where
  projectName : String
  githubLink : String
  projectLink : String
  imageUrl : String
  deriving DecidableEq

/-- A Demo row stored by the backend. -/
structure DemoRow where
  id : String
  fields : DemoFields
  deriving DecidableEq

/-- A DemoTag row stored by the backend. -/
structure DemoTagRow where
  id : String
  demoId : String
  tagId : String
  deriving DecidableEq

/-- Backend state: the two collections and the fresh-id counter. -/
structure RemoteState where
  demos : List DemoRow
  demoTags : List DemoTagRow
  nextId : Nat
  deriving DecidableEq

/-- Fresh ids minted by the backend. -/
def mkId (n : Nat) : String := "id" ++ toString n

/-- The remote calls a workflow invocation can issue. -/
inductive RemoteOp where
  | createDemo (fields : DemoFields)
  | updateDemo (id : String) (fields : DemoFields)
  | delDemo (id : String)
  | listDemoTags (demoId : String)
  | createDemoTag (demoId : String) (tagId : String)
  | delDemoTag (id : String)
  deriving DecidableEq

/-- Outcome of one remote call. -/
inductive CallOutcome where
  | ok
  | okNull
  | fail (msg : String)
  deriving DecidableEq

/-- Effect of a successful call on the backend state (a list call reads and
changes nothing). -/
def applyWrite (st : RemoteState) (op : RemoteOp) : RemoteState :=
  match op with
  | RemoteOp.createDemo fd =>
      { st with demos := st.demos ++ [⟨mkId st.nextId, fd⟩], nextId := st.nextId + 1 }
  | RemoteOp.updateDemo i fd =>
      { st with demos := st.demos.map fun d => if d.id = i then ⟨d.id, fd⟩ else d }
  | RemoteOp.delDemo i =>
      { st with demos := st.demos.filter fun d => !(d.id == i) }
  | RemoteOp.listDemoTags _ => st
  | RemoteOp.createDemoTag d t =>
      { st with demoTags := st.demoTags ++ [⟨mkId st.nextId, d, t⟩], nextId := st.nextId + 1 }
  | RemoteOp.delDemoTag i =>
      { st with demoTags := st.demoTags.filter fun a => !(a.id == i) }

/-- The list call with an equality filter on `demoId`, as issued by both
workflows. -/
def listDemoTagsOf (st : RemoteState) (demoId : String) : List DemoTagRow :=
  st.demoTags.filter fun dt => dt.demoId == demoId

/-- Running record of one invocation: backend state, number of calls issued
so far (indexing the schedule), and the calls issued in order. -/
structure Exec where
  remote : RemoteState
  calls : Nat
  issued : List RemoteOp
  deriving DecidableEq

/-- Issue one remote call under the schedule.  The call is recorded as
issued either way; only a successful call changes the backend state. -/
def doCall (sched : Nat → CallOutcome) (op : RemoteOp) (e : Exec) : Exec × CallOutcome :=
  match sched e.calls with
  | CallOutcome.fail m =>
      ({ e with calls := e.calls + 1, issued := e.issued ++ [op] }, CallOutcome.fail m)
  | oc =>
      ({ remote := applyWrite e.remote op, calls := e.calls + 1,
         issued := e.issued ++ [op] }, oc)

/-- The sequential awaited delete loop over previously listed DemoTag rows;
a rejection aborts the loop and carries the message to the catch. -/
def runDelLoop (sched : Nat → CallOutcome) (dts : List DemoTagRow) (e : Exec) :
    Exec × Option String :=
  match dts with
  | [] => (e, none)
  | dt :: rest =>
      match doCall sched (RemoteOp.delDemoTag dt.id) e with
      | (e1, CallOutcome.fail m) => (e1, some m)
      | (e1, _) => runDelLoop sched rest e1

/-- The sequential awaited create loop over the selected tag ids. -/
def runCreateLoop (sched : Nat → CallOutcome) (demoId : String)
    (tagIds : List String) (e : Exec) : Exec × Option String :=
  match tagIds with
  | [] => (e, none)
  | t :: rest =>
      match doCall sched (RemoteOp.createDemoTag demoId t) e with
      | (e1, CallOutcome.fail m) => (e1, some m)
      | (e1, _) => runCreateLoop sched demoId rest e1

/-- Models the source test `s.trim() === ""`: true exactly when the string
has no non-whitespace character. -/
def trimIsEmpty (s : String) : Bool := s.toList.all Char.isWhitespace

/-- `validateForm` of `App.tsx`: every required string field non-empty after
trimming and at least one tag selected. -/
def validateForm (formData : DemoFields) (selectedTags : List String) : Bool :=
  !(trimIsEmpty formData.projectName || trimIsEmpty formData.githubLink ||
    trimIsEmpty formData.projectLink || trimIsEmpty formData.imageUrl ||
    (selectedTags.length == 0))

/-- The try block of `handleSubmit`: update-then-replace on edit, create on
create, then one DemoTag create per selected tag. -/
def submitTry (sched : Nat → CallOutcome) (editingId : Option String)
    (formData : DemoFields) (selectedTags : List String) (e : Exec) :
    Exec × Option String :=
  match editingId with
  | some eid =>
      match doCall sched (RemoteOp.updateDemo eid formData) e with
      | (e1, CallOutcome.fail m) => (e1, some m)
      | (e1, _) =>
          match doCall sched (RemoteOp.listDemoTags eid) e1 with
          | (e2, CallOutcome.fail m) => (e2, some m)
          | (e2, CallOutcome.okNull) => runCreateLoop sched eid selectedTags e2
          | (e2, CallOutcome.ok) =>
              match runDelLoop sched (listDemoTagsOf e2.remote eid) e2 with
              | (e3, some m) => (e3, some m)
              | (e3, none) => runCreateLoop sched eid selectedTags e3
  | none =>
      match doCall sched (RemoteOp.createDemo formData) e with
      | (e1, CallOutcome.fail m) => (e1, some m)
      | (e1, CallOutcome.okNull) => runCreateLoop sched "" selectedTags e1
      | (e1, CallOutcome.ok) =>
          runCreateLoop sched (mkId e.remote.nextId) selectedTags e1

/-- Result of a `handleSubmit` invocation: the backend interaction, the new
debug string, and whether the form was reset (the try block completed). -/
structure SubmitResult where
  exec : Exec
  debugInfo : String
  formCleared : Bool
  deriving DecidableEq

/-- `handleSubmit` of `App.tsx`: model-existence guard, validation guard,
then the try block with its catch setting the debug string. -/
def handleSubmit (sched : Nat → CallOutcome) (modelExists : Bool)
    (editingId : Option String) (formData : DemoFields)
    (selectedTags : List String) (debugInfo : String) (st : RemoteState) :
    SubmitResult :=
  if !modelExists then
    { exec := ⟨st, 0, []⟩,
      debugInfo := "Cannot submit: Demo model is not available in the backend yet.",
      formCleared := false }
  else if !(validateForm formData selectedTags) then
    { exec := ⟨st, 0, []⟩, debugInfo := debugInfo, formCleared := false }
  else
    match submitTry sched editingId formData selectedTags ⟨st, 0, []⟩ with
    | (e, none) => { exec := e, debugInfo := debugInfo, formCleared := true }
    | (e, some m) =>
        { exec := e, debugInfo := "Error in form submit: " ++ m, formCleared := false }

/-- The try block of `deleteDemo`: list the rows for the entry, delete each
sequentially, then delete the demo itself. -/
def deleteTry (sched : Nat → CallOutcome) (id : String) (e : Exec) :
    Exec × Option String :=
  match doCall sched (RemoteOp.listDemoTags id) e with
  | (e1, CallOutcome.fail m) => (e1, some m)
  | (e1, CallOutcome.okNull) =>
      (match doCall sched (RemoteOp.delDemo id) e1 with
       | (e2, CallOutcome.fail m) => (e2, some m)
       | (e2, _) => (e2, none))
  | (e1, CallOutcome.ok) =>
      match runDelLoop sched (listDemoTagsOf e1.remote id) e1 with
      | (e2, some m) => (e2, some m)
      | (e2, none) =>
          match doCall sched (RemoteOp.delDemo id) e2 with
          | (e3, CallOutcome.fail m) => (e3, some m)
          | (e3, _) => (e3, none)

/-- Result of a `deleteDemo` invocation. -/
structure DeleteResult where
  exec : Exec
  debugInfo : String
  deriving DecidableEq

/-- `deleteDemo` of `App.tsx`: model-existence guard, user confirmation,
then the try block with its catch setting the debug string. -/
def deleteDemo (sched : Nat → CallOutcome) (modelExists confirmed : Bool)
    (debugInfo : String) (st : RemoteState) (id : String) : DeleteResult :=
  if !modelExists then
    ⟨⟨st, 0, []⟩, "Cannot delete: Demo model is not available in the backend yet."⟩
  else if !confirmed then
    ⟨⟨st, 0, []⟩, debugInfo⟩
  else
    match deleteTry sched id ⟨st, 0, []⟩ with
    | (e, none) => ⟨e, debugInfo⟩
    | (e, some m) => ⟨e, "Error deleting demo: " ++ m⟩

/-- The all-success schedule: no remote call rejects or returns null. -/
def allOk : Nat → CallOutcome := fun _ => CallOutcome.ok

/-- A failure-only schedule: `f k = some m` makes the k-th call reject with
message `m`; otherwise the call succeeds. -/
def schedOfFail (f : Nat → Option String) : Nat → CallOutcome := fun n =>
  match f n with
  | none => CallOutcome.ok
  | some m => CallOutcome.fail m

/-- The DemoTag rows a run of the create loop appends, given the counter
value at entry. -/
def mkAssocRows (demoId : String) (tagIds : List String) (n : Nat) : List DemoTagRow :=
  match tagIds with
  | [] => []
  | t :: rest => ⟨mkId n, demoId, t⟩ :: mkAssocRows demoId rest (n + 1)

/-- Iterated id-based deletion, as performed by the delete loop. -/
def delFold (dts : List DemoTagRow) (l : List DemoTagRow) : List DemoTagRow :=
  dts.foldl (fun acc dt => acc.filter fun a => !(a.id == dt.id)) l

/-- Schedule for the C10 scenario: the first call (the Demo create) succeeds
but returns a null item payload; every later call succeeds normally. -/
def nullFirst : Nat → CallOutcome := fun n =>
  if n = 0 then CallOutcome.okNull else CallOutcome.ok

/-- State of the routed admin login screen; the browser local storage is a
map from keys to optionally stored strings. -/
structure LoginState where
  isAuthenticated : Bool
  currentUser : String
  loginError : String
  loginUsername : String
  loginPassword : String
  storage : String → Option String

/-- The fixed administrator allow-list of the routed App. -/
def validUsers : List (String × String) :=
  [("rodes", "remr020605"), ("reno", "!Reno1990.")]

/-- `handleLogin` of the routed App: clear the error, look up the submitted
credentials in the allow-list (username compared case-insensitively,
password compared exactly); on a hit authenticate, remember and persist the
matched username under the fixed key, and clear the form; otherwise set the
error message. -/
def handleLogin (st : LoginState) : LoginState :=
  match validUsers.find? (fun u =>
      (lowerList u.1 == lowerList st.loginUsername) && (u.2 == st.loginPassword)) with
  | some u =>
      { st with
        loginError := ""
        isAuthenticated := true
        currentUser := u.1
        loginUsername := ""
        loginPassword := ""
        storage := fun k => if k = "demo_catalog_user" then some u.1 else st.storage k }
  | none =>
      { st with loginError := "Usuario o contraseña incorrectos" }

/-- `charsIncl` decides the infix (substring) relation. -/
theorem charsIncl_iff (needle hay : List Char) :
    charsIncl needle hay = true ↔ needle <:+: hay := by
  induction hay with
  | nil =>
      simp [charsIncl, List.isPrefixOf_iff_prefix]
  | cons c rest ih =>
      simp [charsIncl, List.isPrefixOf_iff_prefix, ih, List.infix_cons_iff]

/-- `matchesSearch` in terms of the specification-level predicate. -/
theorem matchesSearch_iff (projectName : Option String) (s : String) :
    matchesSearch projectName s = true ↔
      (s = "" ∨ ∃ p, projectName = some p ∧ lowerList s <:+: lowerList p) := by
  cases projectName with
  | none => simp [matchesSearch]
  | some p =>
      by_cases hp : p = ""
      · subst hp
        have hL : matchesSearch (some "") s = (s == "") := by
          simp [matchesSearch]
        rw [hL]
        simp only [beq_iff_eq]
        constructor
        · exact Or.inl
        · rintro (h | ⟨q, hq, hinf⟩)
          · exact h
          · obtain rfl : q = "" := by simpa using hq.symm
            have h1 : lowerList s = [] :=
              List.eq_nil_of_infix_nil (by simpa [lowerList] using hinf)
            have h2 : s.data = [] := by simpa [lowerList, String.toList] using h1
            cases s
            simp_all
      · simp only [matchesSearch, Bool.or_eq_true, beq_iff_eq, Bool.and_eq_true,
          Bool.not_eq_true', beq_eq_false_iff_ne, ne_eq, charsIncl_iff]
        constructor
        · rintro (h | ⟨_, h⟩)
          · exact Or.inl h
          · exact Or.inr ⟨p, rfl, h⟩
        · rintro (h | ⟨q, hq, hinf⟩)
          · exact Or.inl h
          · obtain rfl : q = p := by simpa using hq.symm
            exact Or.inr ⟨hp, hinf⟩

/-- Full membership characterisation of the view filter, shared by the
claim theorems below. -/
theorem mem_getFilteredDemos_iff (demos : List DemoItem) (dts : List DemoTagItem)
    (s : String) (tags : List String) (demo : DemoItem) :
    demo ∈ getFilteredDemos demos dts s tags ↔
      demo ∈ demos ∧
      (s = "" ∨ ∃ p, demo.projectName = some p ∧ lowerList s <:+: lowerList p) ∧
      (tags = [] ∨ ∀ t ∈ tags, ∃ dt ∈ dts, dt.demoId = demo.id ∧ dt.tagId = t) := by
  unfold getFilteredDemos
  rw [List.mem_filter]
  constructor
  · rintro ⟨hmem, hcond⟩
    rw [Bool.and_eq_true] at hcond
    obtain ⟨hsearch, htags⟩ := hcond
    refine ⟨hmem, (matchesSearch_iff _ _).mp hsearch, ?_⟩
    rw [Bool.or_eq_true] at htags
    rcases htags with h | h
    · left
      have : tags.length = 0 := by simpa using h
      exact List.eq_nil_of_length_eq_zero this
    · right
      intro t ht
      rw [List.all_eq_true] at h
      have := h t ht
      rw [List.any_eq_true] at this
      obtain ⟨dt, hdt, hpred⟩ := this
      rw [Bool.and_eq_true, beq_iff_eq, beq_iff_eq] at hpred
      exact ⟨dt, hdt, hpred.1, hpred.2⟩
  · rintro ⟨hmem, hsearch, htags⟩
    refine ⟨hmem, ?_⟩
    rw [Bool.and_eq_true]
    refine ⟨(matchesSearch_iff _ _).mpr hsearch, ?_⟩
    rw [Bool.or_eq_true]
    rcases htags with rfl | h
    · left; simp
    · right
      rw [List.all_eq_true]
      intro t ht
      rw [List.any_eq_true]
      obtain ⟨dt, hdt, h1, h2⟩ := h t ht
      exact ⟨dt, hdt, by simp [h1, h2]⟩

/-- C1: a demo is returned by the view filter exactly when (the search text
is empty or its project name contains the search text as a case-insensitive
substring) and (the selected-tag set is empty or every selected tag id is
linked to the demo by at least one association record). -/
theorem getFilteredDemos_matching_rule (demos : List DemoItem) (dts : List DemoTagItem)
    (s : String) (tags : List String) (demo : DemoItem) :
    demo ∈ getFilteredDemos demos dts s tags ↔
      demo ∈ demos ∧
      (s = "" ∨ ∃ p, demo.projectName = some p ∧ lowerList s <:+: lowerList p) ∧
      (tags = [] ∨ ∀ t ∈ tags, ∃ dt ∈ dts, dt.demoId = demo.id ∧ dt.tagId = t) :=
  mem_getFilteredDemos_iff demos dts s tags demo

/-- C7: the view filter output is a subsequence of the input demo sequence —
every returned demo occurs in the input, none is duplicated or introduced,
and the relative order of the input is preserved. -/
theorem getFilteredDemos_sublist (demos : List DemoItem) (dts : List DemoTagItem)
    (s : String) (tags : List String) :
    List.Sublist (getFilteredDemos demos dts s tags) demos :=
  List.filter_sublist demos

/-- C8: a demo with no association record referencing its id is excluded
whenever the selected-tag set is non-empty, and included when the set is
empty provided its name matches the search text (or the search is empty). -/
theorem getFilteredDemos_no_assoc (demos : List DemoItem) (dts : List DemoTagItem)
    (s : String) (tags : List String) (demo : DemoItem)
    (h : ∀ dt ∈ dts, dt.demoId ≠ demo.id) :
    (tags ≠ [] → demo ∉ getFilteredDemos demos dts s tags) ∧
    (tags = [] → demo ∈ demos →
      (s = "" ∨ ∃ p, demo.projectName = some p ∧ lowerList s <:+: lowerList p) →
      demo ∈ getFilteredDemos demos dts s tags) := by
  constructor
  · intro hne hmem
    rw [mem_getFilteredDemos_iff] at hmem
    obtain ⟨-, -, htags⟩ := hmem
    rcases htags with rfl | hall
    · exact hne rfl
    · obtain ⟨t, ht⟩ := List.exists_mem_of_ne_nil tags hne
      obtain ⟨dt, hdt, h1, -⟩ := hall t ht
      exact h dt hdt h1
  · intro hnil hmem hsearch
    rw [mem_getFilteredDemos_iff]
    exact ⟨hmem, hsearch, Or.inl hnil⟩

/-- Witness for C8 at a concrete input. -/
theorem getFilteredDemos_no_assoc_witness :
    (∀ dt ∈ ([] : List DemoTagItem), dt.demoId ≠ "d1") ∧
    ((["t1"] : List String) ≠ [] →
      ⟨"d1", some "Alpha", none, none, none, "", ""⟩ ∉
        getFilteredDemos [⟨"d1", some "Alpha", none, none, none, "", ""⟩] [] "" ["t1"]) ∧
    (([] : List String) = [] →
      ⟨"d1", some "Alpha", none, none, none, "", ""⟩ ∈
        [(⟨"d1", some "Alpha", none, none, none, "", ""⟩ : DemoItem)] →
      ("" = "" ∨ ∃ p, (some "Alpha" : Option String) = some p ∧
        lowerList "" <:+: lowerList p) →
      ⟨"d1", some "Alpha", none, none, none, "", ""⟩ ∈
        getFilteredDemos [⟨"d1", some "Alpha", none, none, none, "", ""⟩] [] "" []) := by
  refine ⟨by simp, ?_, ?_⟩
  · exact (getFilteredDemos_no_assoc
      [⟨"d1", some "Alpha", none, none, none, "", ""⟩] [] "" ["t1"]
      ⟨"d1", some "Alpha", none, none, none, "", ""⟩ (by simp)).1
  · exact (getFilteredDemos_no_assoc
      [⟨"d1", some "Alpha", none, none, none, "", ""⟩] [] "" []
      ⟨"d1", some "Alpha", none, none, none, "", ""⟩ (by simp)).2

theorem foldl_enrichStep_eq (lookup : String → TagLookup) (items : List DemoTagRaw)
    (acc : List DemoTagItem) :
    items.foldl (enrichStep lookup) acc = acc ++ items.filterMap (enrichOne lookup) := by
  induction items generalizing acc with
  | nil => simp
  | cons item rest ih =>
      rw [List.foldl_cons, ih, List.filterMap_cons]
      unfold enrichStep
      cases enrichOne lookup item with
      | none => simp
      | some enriched => simp

/-- C4: the enricher emits exactly one enriched record per input item whose
tag lookup found a tag, in input order; items whose lookup returned null or
threw contribute nothing; and a failed lookup never aborts the processing of
the remaining items. -/
theorem enrichDemoTags_spec (lookup : String → TagLookup) (items : List DemoTagRaw) :
    enrichDemoTags lookup items = items.filterMap (enrichOne lookup) ∧
    (∀ item tg, lookup item.tagId = TagLookup.found tg →
      enrichOne lookup item =
        some { id := item.id, demoId := item.demoId, tagId := item.tagId,
               tag := some { id := tg.id, name := tg.name.getD "" } }) ∧
    (∀ item, lookup item.tagId = TagLookup.nullData ∨ lookup item.tagId = TagLookup.err →
      enrichOne lookup item = none) ∧
    (∀ item rest, enrichDemoTags lookup (item :: rest) =
      (enrichOne lookup item).toList ++ enrichDemoTags lookup rest) := by
  refine ⟨?_, ?_, ?_, ?_⟩
  · exact foldl_enrichStep_eq lookup items []
  · intro item tg h
    simp [enrichOne, h]
  · rintro item (h | h) <;> simp [enrichOne, h]
  · intro item rest
    rw [enrichDemoTags, foldl_enrichStep_eq, enrichDemoTags, foldl_enrichStep_eq,
      List.filterMap_cons]
    cases enrichOne lookup item <;> simp

/-- Witness for C4 at a concrete lookup and input sequence. -/
theorem enrichDemoTags_spec_witness :
    (∀ item tg,
      (fun i => if i = "t1" then TagLookup.found ⟨"t1", some "Games"⟩
                else if i = "t2" then TagLookup.err else TagLookup.nullData) item.tagId =
          TagLookup.found tg →
      enrichOne (fun i => if i = "t1" then TagLookup.found ⟨"t1", some "Games"⟩
                else if i = "t2" then TagLookup.err else TagLookup.nullData) item =
        some { id := item.id, demoId := item.demoId, tagId := item.tagId,
               tag := some { id := tg.id, name := tg.name.getD "" } }) ∧
    enrichDemoTags
        (fun i => if i = "t1" then TagLookup.found ⟨"t1", some "Games"⟩
                  else if i = "t2" then TagLookup.err else TagLookup.nullData)
        [⟨"a1", "d1", "t1"⟩, ⟨"a2", "d1", "t2"⟩, ⟨"a3", "d2", "t1"⟩] =
      [⟨"a1", "d1", "t1"⟩, ⟨"a3", "d2", "t1"⟩].filterMap
        (enrichOne (fun i => if i = "t1" then TagLookup.found ⟨"t1", some "Games"⟩
                  else if i = "t2" then TagLookup.err else TagLookup.nullData)) ∧
    enrichDemoTags
        (fun i => if i = "t1" then TagLookup.found ⟨"t1", some "Games"⟩
                  else if i = "t2" then TagLookup.err else TagLookup.nullData)
        [⟨"a1", "d1", "t1"⟩, ⟨"a2", "d1", "t2"⟩, ⟨"a3", "d2", "t1"⟩] =
      [{ id := "a1", demoId := "d1", tagId := "t1",
         tag := some { id := "t1", name := "Games" } },
       { id := "a3", demoId := "d2", tagId := "t1",
         tag := some { id := "t1", name := "Games" } }] := by
  refine ⟨(enrichDemoTags_spec
      (fun i => if i = "t1" then TagLookup.found ⟨"t1", some "Games"⟩
                else if i = "t2" then TagLookup.err else TagLookup.nullData)
      [⟨"a1", "d1", "t1"⟩, ⟨"a2", "d1", "t2"⟩, ⟨"a3", "d2", "t1"⟩]).2.1, ?_, ?_⟩ <;> decide

theorem mem_mkAssocRows {a : DemoTagRow} {d : String} {tags : List String} {n : Nat}
    (h : a ∈ mkAssocRows d tags n) : a.demoId = d ∧ a.tagId ∈ tags := by
  induction tags generalizing n with
  | nil => simp [mkAssocRows] at h
  | cons t rest ih =>
      rw [mkAssocRows, List.mem_cons] at h
      rcases h with rfl | h
      · exact ⟨rfl, List.mem_cons_self t rest⟩
      · obtain ⟨h1, h2⟩ := ih h
        exact ⟨h1, List.mem_cons_of_mem t h2⟩

theorem mkAssocRows_exists {t : String} {d : String} {tags : List String}
    (ht : t ∈ tags) (n : Nat) :
    ∃ a ∈ mkAssocRows d tags n, a.demoId = d ∧ a.tagId = t := by
  induction tags generalizing n with
  | nil => simp at ht
  | cons t0 rest ih =>
      rw [List.mem_cons] at ht
      rcases ht with rfl | ht
      · exact ⟨⟨mkId n, d, t⟩, by simp [mkAssocRows], rfl, rfl⟩
      · obtain ⟨a, ha, h1, h2⟩ := ih ht (n + 1)
        exact ⟨a, by simp [mkAssocRows, ha], h1, h2⟩

theorem mkAssocRows_length (d : String) (tags : List String) (n : Nat) :
    (mkAssocRows d tags n).length = tags.length := by
  induction tags generalizing n with
  | nil => rfl
  | cons t rest ih => simp [mkAssocRows, ih]

theorem mkAssocRows_filter_self (d : String) (tags : List String) (n : Nat) :
    (mkAssocRows d tags n).filter (fun a => a.demoId == d) = mkAssocRows d tags n :=
  List.filter_eq_self.mpr fun a ha => by simp [(mem_mkAssocRows ha).1]

/-- Reduction of `doCall` at a successful call. -/
theorem doCall_ok (sched : Nat → CallOutcome) (op : RemoteOp) (e : Exec)
    (h : sched e.calls = CallOutcome.ok) :
    doCall sched op e =
      ({ remote := applyWrite e.remote op, calls := e.calls + 1,
         issued := e.issued ++ [op] }, CallOutcome.ok) := by
  simp [doCall, h]

/-- Reduction of `doCall` at a rejected call. -/
theorem doCall_fail (sched : Nat → CallOutcome) (op : RemoteOp) (e : Exec) (m : String)
    (h : sched e.calls = CallOutcome.fail m) :
    doCall sched op e =
      ({ e with calls := e.calls + 1, issued := e.issued ++ [op] },
        CallOutcome.fail m) := by
  simp [doCall, h]

theorem mem_delFold {a : DemoTagRow} (dts l : List DemoTagRow) :
    a ∈ delFold dts l ↔ a ∈ l ∧ ∀ dt ∈ dts, a.id ≠ dt.id := by
  induction dts generalizing l with
  | nil => simp [delFold]
  | cons dt rest ih =>
      rw [delFold, List.foldl_cons, ← delFold, ih, List.mem_filter]
      constructor
      · rintro ⟨⟨h1, h2⟩, h3⟩
        refine ⟨h1, ?_⟩
        intro dt2 hdt2
        rw [List.mem_cons] at hdt2
        rcases hdt2 with rfl | hdt2
        · simpa using h2
        · exact h3 dt2 hdt2
      · rintro ⟨h1, h2⟩
        exact ⟨⟨h1, by simpa using h2 dt (List.mem_cons_self dt rest)⟩,
          fun dt2 hdt2 => h2 dt2 (List.mem_cons_of_mem dt hdt2)⟩

/-- Characterisation of the delete loop when every scheduled call from the
current position on succeeds. -/
theorem runDelLoop_ok (sched : Nat → CallOutcome) (dts : List DemoTagRow) (e : Exec)
    (h : ∀ n, sched (e.calls + n) = CallOutcome.ok) :
    runDelLoop sched dts e =
      ({ remote := { demos := e.remote.demos,
                     demoTags := delFold dts e.remote.demoTags,
                     nextId := e.remote.nextId },
         calls := e.calls + dts.length,
         issued := e.issued ++ dts.map fun dt => RemoteOp.delDemoTag dt.id }, none) := by
  induction dts generalizing e with
  | nil => simp [runDelLoop, delFold]
  | cons dt rest ih =>
      have h0 : sched e.calls = CallOutcome.ok := by simpa using h 0
      rw [runDelLoop, doCall_ok sched _ e h0]
      have hrec := ih ⟨applyWrite e.remote (RemoteOp.delDemoTag dt.id),
          e.calls + 1, e.issued ++ [RemoteOp.delDemoTag dt.id]⟩
        (fun n => by simpa [Nat.add_assoc] using h (1 + n))
      dsimp only
      rw [hrec]
      simp only [applyWrite, delFold, List.foldl_cons, List.map_cons, List.length_cons,
        Prod.mk.injEq, Exec.mk.injEq, RemoteState.mk.injEq, List.append_assoc,
        List.singleton_append, and_true, true_and]
      omega

/-- Characterisation of the create loop when every scheduled call from the
current position on succeeds. -/
theorem runCreateLoop_ok (sched : Nat → CallOutcome) (d : String)
    (tags : List String) (e : Exec)
    (h : ∀ n, sched (e.calls + n) = CallOutcome.ok) :
    runCreateLoop sched d tags e =
      ({ remote := { demos := e.remote.demos,
                     demoTags := e.remote.demoTags ++ mkAssocRows d tags e.remote.nextId,
                     nextId := e.remote.nextId + tags.length },
         calls := e.calls + tags.length,
         issued := e.issued ++ tags.map (RemoteOp.createDemoTag d) }, none) := by
  induction tags generalizing e with
  | nil => simp [runCreateLoop, mkAssocRows]
  | cons t rest ih =>
      have h0 : sched e.calls = CallOutcome.ok := by simpa using h 0
      rw [runCreateLoop, doCall_ok sched _ e h0]
      have hrec := ih ⟨applyWrite e.remote (RemoteOp.createDemoTag d t),
          e.calls + 1, e.issued ++ [RemoteOp.createDemoTag d t]⟩
        (fun n => by simpa [Nat.add_assoc] using h (1 + n))
      dsimp only
      rw [hrec]
      simp [applyWrite, mkAssocRows, Nat.add_assoc, Nat.add_comm, Nat.add_left_comm]

/-- The delete loop only ever appends to the issued-call log. -/
theorem runDelLoop_issued_ext (sched : Nat → CallOutcome) (dts : List DemoTagRow)
    (e : Exec) : ∃ l, (runDelLoop sched dts e).1.issued = e.issued ++ l := by
  induction dts generalizing e with
  | nil => exact ⟨[], by simp [runDelLoop]⟩
  | cons dt rest ih =>
      rw [runDelLoop]
      rcases hc : doCall sched (RemoteOp.delDemoTag dt.id) e with ⟨e1, oc⟩
      have he1 : e1.issued = e.issued ++ [RemoteOp.delDemoTag dt.id] := by
        unfold doCall at hc
        rcases hsched : sched e.calls with _ | _ | m <;> rw [hsched] at hc <;>
          simp at hc <;> rw [← hc.1]
      cases oc with
      | fail m => exact ⟨[RemoteOp.delDemoTag dt.id], by simpa using he1⟩
      | ok =>
          obtain ⟨l, hl⟩ := ih e1
          exact ⟨RemoteOp.delDemoTag dt.id :: l, by simp [hl, he1]⟩
      | okNull =>
          obtain ⟨l, hl⟩ := ih e1
          exact ⟨RemoteOp.delDemoTag dt.id :: l, by simp [hl, he1]⟩

/-- The create loop only ever appends to the issued-call log. -/
theorem runCreateLoop_issued_ext (sched : Nat → CallOutcome) (d : String)
    (tags : List String) (e : Exec) :
    ∃ l, (runCreateLoop sched d tags e).1.issued = e.issued ++ l := by
  induction tags generalizing e with
  | nil => exact ⟨[], by simp [runCreateLoop]⟩
  | cons t rest ih =>
      rw [runCreateLoop]
      rcases hc : doCall sched (RemoteOp.createDemoTag d t) e with ⟨e1, oc⟩
      have he1 : e1.issued = e.issued ++ [RemoteOp.createDemoTag d t] := by
        unfold doCall at hc
        rcases hsched : sched e.calls with _ | _ | m <;> rw [hsched] at hc <;>
          simp at hc <;> rw [← hc.1]
      cases oc with
      | fail m => exact ⟨[RemoteOp.createDemoTag d t], by simpa using he1⟩
      | ok =>
          obtain ⟨l, hl⟩ := ih e1
          exact ⟨RemoteOp.createDemoTag d t :: l, by simp [hl, he1]⟩
      | okNull =>
          obtain ⟨l, hl⟩ := ih e1
          exact ⟨RemoteOp.createDemoTag d t :: l, by simp [hl, he1]⟩

/-- Reduction of `handleSubmit` when the model exists and validation
passes: the result is determined by the try block. -/
theorem handleSubmit_valid (sched : Nat → CallOutcome) (eid : Option String)
    (fd : DemoFields) (tags : List String) (dbg : String) (st : RemoteState)
    (hval : validateForm fd tags = true) :
    handleSubmit sched true eid fd tags dbg st =
      match submitTry sched eid fd tags ⟨st, 0, []⟩ with
      | (e, none) => { exec := e, debugInfo := dbg, formCleared := true }
      | (e, some m) =>
          { exec := e, debugInfo := "Error in form submit: " ++ m,
            formCleared := false } := by
  simp [handleSubmit, hval]

/-- Full computation of the edit-branch try block on the all-success
schedule. -/
theorem submitTry_allOk_edit (eid : String) (fd : DemoFields) (tags : List String)
    (st : RemoteState) :
    submitTry allOk (some eid) fd tags ⟨st, 0, []⟩ =
      (⟨⟨st.demos.map fun d => if d.id = eid then ⟨d.id, fd⟩ else d,
          delFold (listDemoTagsOf st eid) st.demoTags ++ mkAssocRows eid tags st.nextId,
          st.nextId + tags.length⟩,
        2 + (listDemoTagsOf st eid).length + tags.length,
        RemoteOp.updateDemo eid fd :: RemoteOp.listDemoTags eid ::
          ((listDemoTagsOf st eid).map (fun dt => RemoteOp.delDemoTag dt.id) ++
            tags.map (RemoteOp.createDemoTag eid))⟩, none) := by
  rw [submitTry, doCall_ok allOk _ _ rfl]
  dsimp only
  rw [doCall_ok allOk _ _ rfl]
  dsimp only
  rw [runDelLoop_ok allOk _ _ (fun _ => rfl)]
  dsimp only
  rw [runCreateLoop_ok allOk _ _ _ (fun _ => rfl)]
  simp only [applyWrite, listDemoTagsOf]
  simp [Nat.add_assoc, Nat.add_comm, Nat.add_left_comm]

/-- Full computation of the create-branch try block on the all-success
schedule. -/
theorem submitTry_allOk_create (fd : DemoFields) (tags : List String)
    (st : RemoteState) :
    submitTry allOk none fd tags ⟨st, 0, []⟩ =
      (⟨⟨st.demos ++ [⟨mkId st.nextId, fd⟩],
          st.demoTags ++ mkAssocRows (mkId st.nextId) tags (st.nextId + 1),
          st.nextId + 1 + tags.length⟩,
        1 + tags.length,
        RemoteOp.createDemo fd :: tags.map (RemoteOp.createDemoTag (mkId st.nextId))⟩,
        none) := by
  rw [submitTry, doCall_ok allOk _ _ rfl]
  dsimp only
  rw [runCreateLoop_ok allOk _ _ _ (fun _ => rfl)]
  simp only [applyWrite]
  simp [Nat.add_assoc, Nat.add_comm, Nat.add_left_comm]

theorem handleSubmit_allOk_edit_demoTags (eid : String) (fd : DemoFields)
    (tags : List String) (dbg : String) (st : RemoteState)
    (hval : validateForm fd tags = true) :
    (handleSubmit allOk true (some eid) fd tags dbg st).exec.remote.demoTags =
      delFold (listDemoTagsOf st eid) st.demoTags ++ mkAssocRows eid tags st.nextId := by
  rw [handleSubmit_valid allOk (some eid) fd tags dbg st hval, submitTry_allOk_edit]

theorem handleSubmit_allOk_create_demoTags (fd : DemoFields)
    (tags : List String) (dbg : String) (st : RemoteState)
    (hval : validateForm fd tags = true) :
    (handleSubmit allOk true none fd tags dbg st).exec.remote.demoTags =
      st.demoTags ++ mkAssocRows (mkId st.nextId) tags (st.nextId + 1) := by
  rw [handleSubmit_valid allOk none fd tags dbg st hval, submitTry_allOk_create]

/-- Deleting by the ids listed for an entry leaves no row of that entry. -/
theorem delFold_listed_demoId {a : DemoTagRow} (st : RemoteState) (eid : String)
    (ha : a ∈ delFold (listDemoTagsOf st eid) st.demoTags) : a.demoId ≠ eid := by
  rw [mem_delFold] at ha
  obtain ⟨hmem, hall⟩ := ha
  intro hd
  exact hall a (List.mem_filter.mpr ⟨hmem, by simp [hd]⟩) rfl

/-- C2: after a fully successful save, the association rows for the saved
entry are exactly the selected tag ids — on edit every pre-existing row for
the entry is gone and one fresh row exists per selected tag; on create (with
the freshly minted demo id not yet referenced) one row exists per selected
tag. -/
theorem handleSubmit_success_sets_tags (fd : DemoFields) (tags : List String)
    (dbg : String) (st : RemoteState) (hval : validateForm fd tags = true) :
    (∀ eid,
      (∀ t, (∃ a ∈ (handleSubmit allOk true (some eid) fd tags dbg st).exec.remote.demoTags,
              a.demoId = eid ∧ a.tagId = t) ↔ t ∈ tags) ∧
      ((handleSubmit allOk true (some eid) fd tags dbg st).exec.remote.demoTags.filter
          (fun a => a.demoId == eid)).length = tags.length) ∧
    ((∀ a ∈ st.demoTags, a.demoId ≠ mkId st.nextId) →
      (∀ t, (∃ a ∈ (handleSubmit allOk true none fd tags dbg st).exec.remote.demoTags,
              a.demoId = mkId st.nextId ∧ a.tagId = t) ↔ t ∈ tags) ∧
      ((handleSubmit allOk true none fd tags dbg st).exec.remote.demoTags.filter
          (fun a => a.demoId == mkId st.nextId)).length = tags.length) := by
  constructor
  · intro eid
    have hEq := handleSubmit_allOk_edit_demoTags eid fd tags dbg st hval
    constructor
    · intro t
      constructor
      · rintro ⟨a, ha, h1, h2⟩
        rw [hEq, List.mem_append] at ha
        rcases ha with ha | ha
        · exact absurd h1 (delFold_listed_demoId st eid ha)
        · exact h2 ▸ (mem_mkAssocRows ha).2
      · intro ht
        obtain ⟨a, ha, h1, h2⟩ := mkAssocRows_exists ht st.nextId
        exact ⟨a, by rw [hEq, List.mem_append]; exact Or.inr ha, h1, h2⟩
    · rw [hEq, List.filter_append]
      have h1 : (delFold (listDemoTagsOf st eid) st.demoTags).filter
          (fun a => a.demoId == eid) = [] := by
        refine List.filter_eq_nil_iff.mpr fun a ha => ?_
        simpa using delFold_listed_demoId st eid ha
      rw [h1, mkAssocRows_filter_self]
      simp [mkAssocRows_length]
  · intro hfresh
    have hEq := handleSubmit_allOk_create_demoTags fd tags dbg st hval
    constructor
    · intro t
      constructor
      · rintro ⟨a, ha, h1, h2⟩
        rw [hEq, List.mem_append] at ha
        rcases ha with ha | ha
        · exact absurd h1 (hfresh a ha)
        · exact h2 ▸ (mem_mkAssocRows ha).2
      · intro ht
        obtain ⟨a, ha, h1, h2⟩ := mkAssocRows_exists ht (st.nextId + 1)
        exact ⟨a, by rw [hEq, List.mem_append]; exact Or.inr ha, h1, h2⟩
    · rw [hEq, List.filter_append]
      have h1 : st.demoTags.filter (fun a => a.demoId == mkId st.nextId) = [] := by
        refine List.filter_eq_nil_iff.mpr fun a ha => ?_
        simpa using hfresh a ha
      rw [h1, mkAssocRows_filter_self]
      simp [mkAssocRows_length]

/-- Witness for C2 at a concrete store and selection. -/
theorem handleSubmit_success_sets_tags_witness :
    validateForm ⟨"P", "G", "L", "I"⟩ ["a", "b"] = true ∧
    ((∀ eid,
      (∀ t, (∃ a ∈ (handleSubmit allOk true (some eid) ⟨"P", "G", "L", "I"⟩ ["a", "b"] "D"
                ⟨[⟨"d1", ⟨"x", "x", "x", "x"⟩⟩], [⟨"r1", "d1", "a"⟩, ⟨"r2", "d1", "c"⟩],
                  7⟩).exec.remote.demoTags,
              a.demoId = eid ∧ a.tagId = t) ↔ t ∈ ["a", "b"]) ∧
      ((handleSubmit allOk true (some eid) ⟨"P", "G", "L", "I"⟩ ["a", "b"] "D"
          ⟨[⟨"d1", ⟨"x", "x", "x", "x"⟩⟩], [⟨"r1", "d1", "a"⟩, ⟨"r2", "d1", "c"⟩],
            7⟩).exec.remote.demoTags.filter (fun a => a.demoId == eid)).length =
        (["a", "b"] : List String).length) ∧
    ((∀ a ∈ [(⟨"r1", "d1", "a"⟩ : DemoTagRow), ⟨"r2", "d1", "c"⟩],
        a.demoId ≠ mkId 7) →
      (∀ t, (∃ a ∈ (handleSubmit allOk true none ⟨"P", "G", "L", "I"⟩ ["a", "b"] "D"
                ⟨[⟨"d1", ⟨"x", "x", "x", "x"⟩⟩], [⟨"r1", "d1", "a"⟩, ⟨"r2", "d1", "c"⟩],
                  7⟩).exec.remote.demoTags,
              a.demoId = mkId 7 ∧ a.tagId = t) ↔ t ∈ ["a", "b"]) ∧
      ((handleSubmit allOk true none ⟨"P", "G", "L", "I"⟩ ["a", "b"] "D"
          ⟨[⟨"d1", ⟨"x", "x", "x", "x"⟩⟩], [⟨"r1", "d1", "a"⟩, ⟨"r2", "d1", "c"⟩],
            7⟩).exec.remote.demoTags.filter (fun a => a.demoId == mkId 7)).length =
        (["a", "b"] : List String).length)) :=
  ⟨by decide,
   handleSubmit_success_sets_tags ⟨"P", "G", "L", "I"⟩ ["a", "b"] "D"
     ⟨[⟨"d1", ⟨"x", "x", "x", "x"⟩⟩], [⟨"r1", "d1", "a"⟩, ⟨"r2", "d1", "c"⟩], 7⟩
     (by decide)⟩

/-- Full computation of the delete try block on the all-success schedule. -/
theorem deleteTry_allOk (i : String) (st : RemoteState) :
    deleteTry allOk i ⟨st, 0, []⟩ =
      (⟨⟨st.demos.filter fun d => !(d.id == i),
          delFold (listDemoTagsOf st i) st.demoTags,
          st.nextId⟩,
        2 + (listDemoTagsOf st i).length,
        RemoteOp.listDemoTags i ::
          ((listDemoTagsOf st i).map (fun dt => RemoteOp.delDemoTag dt.id) ++
            [RemoteOp.delDemo i])⟩, none) := by
  rw [deleteTry, doCall_ok allOk _ _ rfl]
  dsimp only
  rw [runDelLoop_ok allOk _ _ (fun _ => rfl)]
  dsimp only
  rw [doCall_ok allOk _ _ rfl]
  simp only [applyWrite, listDemoTagsOf]
  simp only [Prod.mk.injEq, Exec.mk.injEq, RemoteState.mk.injEq, List.append_assoc,
    List.singleton_append, List.nil_append, List.cons_append, and_true, true_and]
  omega

/-- C3: on the all-success path the delete workflow first deletes every
association row listed for the entry and only then deletes the entry; the
post state holds neither the entry nor any association referencing it, and
the referential invariant is preserved. -/
theorem deleteDemo_assoc_before_entry (dbg : String) (st : RemoteState) (i : String) :
    (deleteDemo allOk true true dbg st i).exec.issued =
      RemoteOp.listDemoTags i ::
        ((listDemoTagsOf st i).map (fun dt => RemoteOp.delDemoTag dt.id) ++
          [RemoteOp.delDemo i]) ∧
    (∀ d ∈ (deleteDemo allOk true true dbg st i).exec.remote.demos, d.id ≠ i) ∧
    (∀ a ∈ (deleteDemo allOk true true dbg st i).exec.remote.demoTags, a.demoId ≠ i) ∧
    ((∀ a ∈ st.demoTags, ∃ d ∈ st.demos, d.id = a.demoId) →
      ∀ a ∈ (deleteDemo allOk true true dbg st i).exec.remote.demoTags,
        ∃ d ∈ (deleteDemo allOk true true dbg st i).exec.remote.demos,
          d.id = a.demoId) := by
  have hred : deleteDemo allOk true true dbg st i =
      ⟨⟨⟨st.demos.filter fun d => !(d.id == i),
          delFold (listDemoTagsOf st i) st.demoTags,
          st.nextId⟩,
        2 + (listDemoTagsOf st i).length,
        RemoteOp.listDemoTags i ::
          ((listDemoTagsOf st i).map (fun dt => RemoteOp.delDemoTag dt.id) ++
            [RemoteOp.delDemo i])⟩, dbg⟩ := by
    rw [deleteDemo]
    simp only [Bool.not_true, Bool.false_eq_true, if_false, deleteTry_allOk i st]
  refine ⟨by rw [hred], ?_, ?_, ?_⟩
  · intro d hd
    rw [hred] at hd
    simpa using (List.mem_filter.mp hd).2
  · intro a ha
    rw [hred] at ha
    exact delFold_listed_demoId st i ha
  · intro hinv a ha
    rw [hred] at ha ⊢
    have hne : a.demoId ≠ i := delFold_listed_demoId st i ha
    have hmem : a ∈ st.demoTags := ((mem_delFold _ _).mp ha).1
    obtain ⟨d, hd, hdid⟩ := hinv a hmem
    exact ⟨d, List.mem_filter.mpr ⟨hd, by simp [hdid, hne]⟩, hdid⟩

/-- Witness for C3 at a concrete store. -/
theorem deleteDemo_assoc_before_entry_witness :
    (deleteDemo allOk true true "D"
        ⟨[⟨"d1", ⟨"x", "x", "x", "x"⟩⟩, ⟨"d2", ⟨"y", "y", "y", "y"⟩⟩],
          [⟨"r1", "d1", "a"⟩, ⟨"r2", "d2", "b"⟩], 5⟩ "d1").exec.issued =
      RemoteOp.listDemoTags "d1" ::
        ((listDemoTagsOf
            ⟨[⟨"d1", ⟨"x", "x", "x", "x"⟩⟩, ⟨"d2", ⟨"y", "y", "y", "y"⟩⟩],
              [⟨"r1", "d1", "a"⟩, ⟨"r2", "d2", "b"⟩], 5⟩ "d1").map
            (fun dt => RemoteOp.delDemoTag dt.id) ++ [RemoteOp.delDemo "d1"]) ∧
    (∀ d ∈ (deleteDemo allOk true true "D"
        ⟨[⟨"d1", ⟨"x", "x", "x", "x"⟩⟩, ⟨"d2", ⟨"y", "y", "y", "y"⟩⟩],
          [⟨"r1", "d1", "a"⟩, ⟨"r2", "d2", "b"⟩], 5⟩ "d1").exec.remote.demos,
      d.id ≠ "d1") ∧
    (∀ a ∈ (deleteDemo allOk true true "D"
        ⟨[⟨"d1", ⟨"x", "x", "x", "x"⟩⟩, ⟨"d2", ⟨"y", "y", "y", "y"⟩⟩],
          [⟨"r1", "d1", "a"⟩, ⟨"r2", "d2", "b"⟩], 5⟩ "d1").exec.remote.demoTags,
      a.demoId ≠ "d1") ∧
    ((∀ a ∈ [(⟨"r1", "d1", "a"⟩ : DemoTagRow), ⟨"r2", "d2", "b"⟩],
        ∃ d ∈ [(⟨"d1", (⟨"x", "x", "x", "x"⟩ : DemoFields)⟩ : DemoRow),
          ⟨"d2", ⟨"y", "y", "y", "y"⟩⟩], d.id = a.demoId) →
      ∀ a ∈ (deleteDemo allOk true true "D"
          ⟨[⟨"d1", ⟨"x", "x", "x", "x"⟩⟩, ⟨"d2", ⟨"y", "y", "y", "y"⟩⟩],
            [⟨"r1", "d1", "a"⟩, ⟨"r2", "d2", "b"⟩], 5⟩ "d1").exec.remote.demoTags,
        ∃ d ∈ (deleteDemo allOk true true "D"
            ⟨[⟨"d1", ⟨"x", "x", "x", "x"⟩⟩, ⟨"d2", ⟨"y", "y", "y", "y"⟩⟩],
              [⟨"r1", "d1", "a"⟩, ⟨"r2", "d2", "b"⟩], 5⟩ "d1").exec.remote.demos,
          d.id = a.demoId) :=
  deleteDemo_assoc_before_entry "D"
    ⟨[⟨"d1", ⟨"x", "x", "x", "x"⟩⟩, ⟨"d2", ⟨"y", "y", "y", "y"⟩⟩],
      [⟨"r1", "d1", "a"⟩, ⟨"r2", "d2", "b"⟩], 5⟩ "d1"

/-- Reduction of `doCall` at a call that succeeds with a null item payload. -/
theorem doCall_okNull (sched : Nat → CallOutcome) (op : RemoteOp) (e : Exec)
    (h : sched e.calls = CallOutcome.okNull) :
    doCall sched op e =
      ({ remote := applyWrite e.remote op, calls := e.calls + 1,
         issued := e.issued ++ [op] }, CallOutcome.okNull) := by
  simp [doCall, h]

/-- Every call records itself in the issued log, whatever its outcome. -/
theorem doCall_issued (sched : Nat → CallOutcome) (op : RemoteOp) (e : Exec) :
    (doCall sched op e).1.issued = e.issued ++ [op] := by
  unfold doCall
  rcases h : sched e.calls with _ | _ | m <;> rfl

/-- The backend never mints the empty string as an id. -/
theorem mkId_ne_empty (n : Nat) : mkId n ≠ "" := by
  intro h
  have h2 : ("id" ++ toString n).data = "".data :=
    congrArg String.data (by simpa [mkId] using h)
  rw [String.data_append] at h2
  have h0 : ("" : String).data = [] := rfl
  rw [h0] at h2
  exact absurd (List.append_eq_nil.mp h2).1 (by decide)

/-- Full computation of the create-branch try block when the create returns
a null payload and everything else succeeds. -/
theorem submitTry_nullFirst_create (fd : DemoFields) (tags : List String)
    (st : RemoteState) :
    submitTry nullFirst none fd tags ⟨st, 0, []⟩ =
      (⟨⟨st.demos ++ [⟨mkId st.nextId, fd⟩],
          st.demoTags ++ mkAssocRows "" tags (st.nextId + 1),
          st.nextId + 1 + tags.length⟩,
        1 + tags.length,
        RemoteOp.createDemo fd :: tags.map (RemoteOp.createDemoTag "")⟩, none) := by
  rw [submitTry, doCall_okNull nullFirst (RemoteOp.createDemo fd) ⟨st, 0, []⟩ rfl]
  dsimp only
  rw [runCreateLoop_ok nullFirst "" tags _ (fun n => by
    have hn : 0 + 1 + n ≠ 0 := by omega
    simp [nullFirst, hn])]
  simp only [applyWrite]
  simp [Nat.add_assoc, Nat.add_comm, Nat.add_left_comm]

/-- C10: in the create branch, when the Demo create succeeds with a null
item payload, the workflow proceeds and creates one association per selected
tag with the empty string as entry reference — rows that reference no
existing entry. -/
theorem handleSubmit_null_payload_empty_ref (fd : DemoFields) (tags : List String)
    (dbg : String) (st : RemoteState)
    (hval : validateForm fd tags = true)
    (hids : ∀ d ∈ st.demos, d.id ≠ "") :
    (handleSubmit nullFirst true none fd tags dbg st).exec.issued =
      RemoteOp.createDemo fd :: tags.map (RemoteOp.createDemoTag "") ∧
    (∀ t ∈ tags, ∃ a ∈ (handleSubmit nullFirst true none fd tags dbg st).exec.remote.demoTags,
        a.demoId = "" ∧ a.tagId = t) ∧
    (∀ d ∈ (handleSubmit nullFirst true none fd tags dbg st).exec.remote.demos,
        d.id ≠ "") := by
  have hred : handleSubmit nullFirst true none fd tags dbg st =
      { exec := ⟨⟨st.demos ++ [⟨mkId st.nextId, fd⟩],
          st.demoTags ++ mkAssocRows "" tags (st.nextId + 1),
          st.nextId + 1 + tags.length⟩,
        1 + tags.length,
        RemoteOp.createDemo fd :: tags.map (RemoteOp.createDemoTag "")⟩,
        debugInfo := dbg, formCleared := true } := by
    rw [handleSubmit_valid nullFirst none fd tags dbg st hval,
      submitTry_nullFirst_create]
  refine ⟨by rw [hred], ?_, ?_⟩
  · intro t ht
    obtain ⟨a, ha, h1, h2⟩ := mkAssocRows_exists ht (st.nextId + 1)
    exact ⟨a, by rw [hred]; exact List.mem_append_right _ ha, h1, h2⟩
  · intro d hd
    rw [hred] at hd
    rcases List.mem_append.mp hd with hd | hd
    · exact hids d hd
    · obtain rfl : d = ⟨mkId st.nextId, fd⟩ := by simpa using hd
      exact mkId_ne_empty st.nextId

/-- Witness for C10 at a concrete store and selection. -/
theorem handleSubmit_null_payload_empty_ref_witness :
    validateForm ⟨"P", "G", "L", "I"⟩ ["a", "b"] = true ∧
    (∀ d ∈ [(⟨"d1", (⟨"x", "x", "x", "x"⟩ : DemoFields)⟩ : DemoRow)], d.id ≠ "") ∧
    ((handleSubmit nullFirst true none ⟨"P", "G", "L", "I"⟩ ["a", "b"] "D"
        ⟨[⟨"d1", ⟨"x", "x", "x", "x"⟩⟩], [], 3⟩).exec.issued =
      RemoteOp.createDemo ⟨"P", "G", "L", "I"⟩ ::
        (["a", "b"] : List String).map (RemoteOp.createDemoTag "") ∧
    (∀ t ∈ (["a", "b"] : List String),
      ∃ a ∈ (handleSubmit nullFirst true none ⟨"P", "G", "L", "I"⟩ ["a", "b"] "D"
          ⟨[⟨"d1", ⟨"x", "x", "x", "x"⟩⟩], [], 3⟩).exec.remote.demoTags,
        a.demoId = "" ∧ a.tagId = t) ∧
    (∀ d ∈ (handleSubmit nullFirst true none ⟨"P", "G", "L", "I"⟩ ["a", "b"] "D"
          ⟨[⟨"d1", ⟨"x", "x", "x", "x"⟩⟩], [], 3⟩).exec.remote.demos,
        d.id ≠ "")) :=
  ⟨by decide, by decide,
   handleSubmit_null_payload_empty_ref ⟨"P", "G", "L", "I"⟩ ["a", "b"] "D"
     ⟨[⟨"d1", ⟨"x", "x", "x", "x"⟩⟩], [], 3⟩ (by decide) (by decide)⟩

/-- When validation fails (or the model is missing) no remote call is made
and the backend state is untouched. -/
theorem handleSubmit_invalid (sched : Nat → CallOutcome) (modelEx : Bool)
    (eid : Option String) (fd : DemoFields) (tags : List String) (dbg : String)
    (st : RemoteState) (h : validateForm fd tags = false) :
    (handleSubmit sched modelEx eid fd tags dbg st).exec = ⟨st, 0, []⟩ := by
  cases modelEx <;> simp [handleSubmit, h]

/-- Whatever the schedule, the first call the try block issues is the Demo
update (edit) or the Demo create (create). -/
theorem submitTry_first_op (sched : Nat → CallOutcome) (eid : Option String)
    (fd : DemoFields) (tags : List String) (st : RemoteState) :
    ∃ l, (submitTry sched eid fd tags ⟨st, 0, []⟩).1.issued =
      (match eid with
       | some e => RemoteOp.updateDemo e fd
       | none => RemoteOp.createDemo fd) :: l := by
  cases eid with
  | none =>
      rw [submitTry]
      rcases h1 : doCall sched (RemoteOp.createDemo fd) ⟨st, 0, []⟩ with ⟨e1, oc1⟩
      have he1 : e1.issued = [RemoteOp.createDemo fd] := by
        have h := doCall_issued sched (RemoteOp.createDemo fd) ⟨st, 0, []⟩
        rw [h1] at h
        simpa using h
      cases oc1 with
      | fail m => exact ⟨[], by simpa using he1⟩
      | ok =>
          dsimp only
          obtain ⟨l, hl⟩ := runCreateLoop_issued_ext sched (mkId st.nextId) tags e1
          exact ⟨l, by rw [hl, he1]; simp⟩
      | okNull =>
          dsimp only
          obtain ⟨l, hl⟩ := runCreateLoop_issued_ext sched "" tags e1
          exact ⟨l, by rw [hl, he1]; simp⟩
  | some e =>
      rw [submitTry]
      rcases h1 : doCall sched (RemoteOp.updateDemo e fd) ⟨st, 0, []⟩ with ⟨e1, oc1⟩
      have he1 : e1.issued = [RemoteOp.updateDemo e fd] := by
        have h := doCall_issued sched (RemoteOp.updateDemo e fd) ⟨st, 0, []⟩
        rw [h1] at h
        simpa using h
      cases oc1 with
      | fail m => exact ⟨[], by simpa using he1⟩
      | ok =>
          dsimp only
          rcases h2 : doCall sched (RemoteOp.listDemoTags e) e1 with ⟨e2, oc2⟩
          have he2 : e2.issued = e1.issued ++ [RemoteOp.listDemoTags e] := by
            have h := doCall_issued sched (RemoteOp.listDemoTags e) e1
            rw [h2] at h
            simpa using h
          cases oc2 with
          | fail m =>
              dsimp only
              exact ⟨[RemoteOp.listDemoTags e], by rw [he2, he1]; simp⟩
          | okNull =>
              dsimp only
              obtain ⟨l, hl⟩ := runCreateLoop_issued_ext sched e tags e2
              exact ⟨RemoteOp.listDemoTags e :: l, by rw [hl, he2, he1]; simp⟩
          | ok =>
              dsimp only
              rcases h3 : runDelLoop sched (listDemoTagsOf e2.remote e) e2 with ⟨e3, r3⟩
              have hex3 : ∃ l3, e3.issued = e2.issued ++ l3 := by
                obtain ⟨l3, h⟩ := runDelLoop_issued_ext sched (listDemoTagsOf e2.remote e) e2
                rw [h3] at h
                exact ⟨l3, h⟩
              obtain ⟨l3, hl3⟩ := hex3
              cases r3 with
              | some m =>
                  dsimp only
                  exact ⟨RemoteOp.listDemoTags e :: l3, by rw [hl3, he2, he1]; simp⟩
              | none =>
                  dsimp only
                  obtain ⟨l4, hl4⟩ := runCreateLoop_issued_ext sched e tags e3
                  exact ⟨RemoteOp.listDemoTags e :: (l3 ++ l4), by
                    rw [hl4, hl3, he2, he1]
                    simp⟩
      | okNull =>
          dsimp only
          rcases h2 : doCall sched (RemoteOp.listDemoTags e) e1 with ⟨e2, oc2⟩
          have he2 : e2.issued = e1.issued ++ [RemoteOp.listDemoTags e] := by
            have h := doCall_issued sched (RemoteOp.listDemoTags e) e1
            rw [h2] at h
            simpa using h
          cases oc2 with
          | fail m =>
              dsimp only
              exact ⟨[RemoteOp.listDemoTags e], by rw [he2, he1]; simp⟩
          | okNull =>
              dsimp only
              obtain ⟨l, hl⟩ := runCreateLoop_issued_ext sched e tags e2
              exact ⟨RemoteOp.listDemoTags e :: l, by rw [hl, he2, he1]; simp⟩
          | ok =>
              dsimp only
              rcases h3 : runDelLoop sched (listDemoTagsOf e2.remote e) e2 with ⟨e3, r3⟩
              have hex3 : ∃ l3, e3.issued = e2.issued ++ l3 := by
                obtain ⟨l3, h⟩ := runDelLoop_issued_ext sched (listDemoTagsOf e2.remote e) e2
                rw [h3] at h
                exact ⟨l3, h⟩
              obtain ⟨l3, hl3⟩ := hex3
              cases r3 with
              | some m =>
                  dsimp only
                  exact ⟨RemoteOp.listDemoTags e :: l3, by rw [hl3, he2, he1]; simp⟩
              | none =>
                  dsimp only
                  obtain ⟨l4, hl4⟩ := runCreateLoop_issued_ext sched e tags e3
                  exact ⟨RemoteOp.listDemoTags e :: (l3 ++ l4), by
                    rw [hl4, hl3, he2, he1]
                    simp⟩

/-- C5 counterexample: a form whose four required string fields are all
non-empty still fails validation when no tag is selected, and no remote
operation is performed — refuting claim C5 as stated. -/
theorem handleSubmit_nonempty_fields_not_sufficient :
    trimIsEmpty "x" = false ∧
    validateForm ⟨"x", "x", "x", "x"⟩ [] = false ∧
    (handleSubmit allOk true none ⟨"x", "x", "x", "x"⟩ [] "D"
      ⟨[], [], 0⟩).exec.issued = [] ∧
    (handleSubmit allOk true none ⟨"x", "x", "x", "x"⟩ [] "D"
      ⟨[], [], 0⟩).exec.remote = ⟨[], [], 0⟩ := by
  decide

/-- C5 (amended): an empty required string field blocks every remote
operation; and when all required string fields are non-empty AND at least
one tag is selected, validation passes and (with the backend model present)
the workflow proceeds to create or update the entry. -/
theorem handleSubmit_validation_gate (sched : Nat → CallOutcome) (modelEx : Bool)
    (eid : Option String) (fd : DemoFields) (tags : List String) (dbg : String)
    (st : RemoteState) :
    ((trimIsEmpty fd.projectName = true ∨ trimIsEmpty fd.githubLink = true ∨
      trimIsEmpty fd.projectLink = true ∨ trimIsEmpty fd.imageUrl = true) →
      (handleSubmit sched modelEx eid fd tags dbg st).exec.issued = [] ∧
      (handleSubmit sched modelEx eid fd tags dbg st).exec.remote = st) ∧
    ((trimIsEmpty fd.projectName = false ∧ trimIsEmpty fd.githubLink = false ∧
      trimIsEmpty fd.projectLink = false ∧ trimIsEmpty fd.imageUrl = false ∧
      tags ≠ []) →
      validateForm fd tags = true ∧
      ∃ l, (handleSubmit sched true eid fd tags dbg st).exec.issued =
        (match eid with
         | some e => RemoteOp.updateDemo e fd
         | none => RemoteOp.createDemo fd) :: l) := by
  constructor
  · intro h
    have hval : validateForm fd tags = false := by
      rcases h with h | h | h | h <;> simp [validateForm, h]
    rw [handleSubmit_invalid sched modelEx eid fd tags dbg st hval]
    exact ⟨rfl, rfl⟩
  · rintro ⟨h1, h2, h3, h4, h5⟩
    have hlen : (tags.length == 0) = false := by
      simpa [List.length_eq_zero] using h5
    have hval : validateForm fd tags = true := by
      simp [validateForm, h1, h2, h3, h4, hlen]
    refine ⟨hval, ?_⟩
    rw [handleSubmit_valid sched eid fd tags dbg st hval]
    obtain ⟨l, hl⟩ := submitTry_first_op sched eid fd tags st
    refine ⟨l, ?_⟩
    rcases hs : submitTry sched eid fd tags ⟨st, 0, []⟩ with ⟨e, r⟩
    rw [hs] at hl
    cases r <;> simpa using hl

/-- Witness for the amended C5 at concrete inputs. -/
theorem handleSubmit_validation_gate_witness :
    ((trimIsEmpty "" = true ∨ trimIsEmpty "g" = true ∨
      trimIsEmpty "l" = true ∨ trimIsEmpty "i" = true) →
      (handleSubmit allOk true none ⟨"", "g", "l", "i"⟩ ["a"] "D"
        ⟨[], [], 0⟩).exec.issued = [] ∧
      (handleSubmit allOk true none ⟨"", "g", "l", "i"⟩ ["a"] "D"
        ⟨[], [], 0⟩).exec.remote = ⟨[], [], 0⟩) ∧
    ((trimIsEmpty "" = false ∧ trimIsEmpty "g" = false ∧
      trimIsEmpty "l" = false ∧ trimIsEmpty "i" = false ∧
      (["a"] : List String) ≠ []) →
      validateForm ⟨"", "g", "l", "i"⟩ ["a"] = true ∧
      ∃ l, (handleSubmit allOk true none ⟨"", "g", "l", "i"⟩ ["a"] "D"
          ⟨[], [], 0⟩).exec.issued =
        (match (none : Option String) with
         | some e => RemoteOp.updateDemo e ⟨"", "g", "l", "i"⟩
         | none => RemoteOp.createDemo ⟨"", "g", "l", "i"⟩) :: l) :=
  handleSubmit_validation_gate allOk true none ⟨"", "g", "l", "i"⟩ ["a"] "D" ⟨[], [], 0⟩

/-- Against a failure-only schedule the delete loop either completes exactly
as on the all-success schedule, or stops at the first rejection having
issued a prefix of the all-success call sequence. -/
theorem runDelLoop_prefix (f : Nat → Option String) (dts : List DemoTagRow) (e : Exec) :
    ((runDelLoop (schedOfFail f) dts e).2 = none →
      runDelLoop (schedOfFail f) dts e = runDelLoop allOk dts e) ∧
    List.IsPrefix (runDelLoop (schedOfFail f) dts e).1.issued
      (runDelLoop allOk dts e).1.issued := by
  induction dts generalizing e with
  | nil => exact ⟨fun _ => rfl, List.prefix_refl _⟩
  | cons dt rest ih =>
      rcases hf : f e.calls with _ | m
      · have hok : schedOfFail f e.calls = CallOutcome.ok := by simp [schedOfFail, hf]
        rw [runDelLoop, doCall_ok (schedOfFail f) _ e hok,
          runDelLoop, doCall_ok allOk _ e rfl]
        dsimp only
        exact ih _
      · have hfl : schedOfFail f e.calls = CallOutcome.fail m := by simp [schedOfFail, hf]
        rw [runDelLoop, doCall_fail (schedOfFail f) _ e m hfl,
          runDelLoop, doCall_ok allOk _ e rfl]
        dsimp only
        constructor
        · intro h
          simp at h
        · obtain ⟨l, hl⟩ := runDelLoop_issued_ext allOk rest
            ⟨applyWrite e.remote (RemoteOp.delDemoTag dt.id), e.calls + 1,
              e.issued ++ [RemoteOp.delDemoTag dt.id]⟩
          rw [hl]
          exact List.prefix_append _ l

/-- Same statement for the create loop. -/
theorem runCreateLoop_prefix (f : Nat → Option String) (d : String)
    (tags : List String) (e : Exec) :
    ((runCreateLoop (schedOfFail f) d tags e).2 = none →
      runCreateLoop (schedOfFail f) d tags e = runCreateLoop allOk d tags e) ∧
    List.IsPrefix (runCreateLoop (schedOfFail f) d tags e).1.issued
      (runCreateLoop allOk d tags e).1.issued := by
  induction tags generalizing e with
  | nil => exact ⟨fun _ => rfl, List.prefix_refl _⟩
  | cons t rest ih =>
      rcases hf : f e.calls with _ | m
      · have hok : schedOfFail f e.calls = CallOutcome.ok := by simp [schedOfFail, hf]
        rw [runCreateLoop, doCall_ok (schedOfFail f) _ e hok,
          runCreateLoop, doCall_ok allOk _ e rfl]
        dsimp only
        exact ih _
      · have hfl : schedOfFail f e.calls = CallOutcome.fail m := by simp [schedOfFail, hf]
        rw [runCreateLoop, doCall_fail (schedOfFail f) _ e m hfl,
          runCreateLoop, doCall_ok allOk _ e rfl]
        dsimp only
        constructor
        · intro h
          simp at h
        · obtain ⟨l, hl⟩ := runCreateLoop_issued_ext allOk d rest
            ⟨applyWrite e.remote (RemoteOp.createDemoTag d t), e.calls + 1,
              e.issued ++ [RemoteOp.createDemoTag d t]⟩
          rw [hl]
          exact List.prefix_append _ l

theorem isPre_append_left {α : Type} (a : List α) {b c : List α}
    (h : List.IsPrefix b c) : List.IsPrefix (a ++ b) (a ++ c) := by
  obtain ⟨t, rfl⟩ := h
  exact ⟨t, by simp⟩

theorem runDelLoop_allOk_snd (dts : List DemoTagRow) (e : Exec) :
    (runDelLoop allOk dts e).2 = none := by
  rw [runDelLoop_ok allOk dts e (fun _ => rfl)]

theorem runCreateLoop_allOk_snd (d : String) (tags : List String) (e : Exec) :
    (runCreateLoop allOk d tags e).2 = none := by
  rw [runCreateLoop_ok allOk d tags e (fun _ => rfl)]

/-- Against a failure-only schedule the submit try block either completes
exactly as on the all-success schedule, or stops at the first rejection
having issued a prefix of the all-success call sequence. -/
theorem submitTry_prefix_aux (f : Nat → Option String) (eid : Option String)
    (fd : DemoFields) (tags : List String) (e : Exec) :
    ((submitTry (schedOfFail f) eid fd tags e).2 = none →
      submitTry (schedOfFail f) eid fd tags e = submitTry allOk eid fd tags e) ∧
    List.IsPrefix (submitTry (schedOfFail f) eid fd tags e).1.issued
      (submitTry allOk eid fd tags e).1.issued := by
  cases eid with
  | none =>
      rcases hf : f e.calls with _ | m
      · rw [submitTry, doCall_ok (schedOfFail f) _ e (by simp [schedOfFail, hf]),
          submitTry, doCall_ok allOk _ e rfl]
        dsimp only
        exact runCreateLoop_prefix f (mkId e.remote.nextId) tags _
      · rw [submitTry, doCall_fail (schedOfFail f) _ e m (by simp [schedOfFail, hf]),
          submitTry, doCall_ok allOk _ e rfl]
        dsimp only
        refine ⟨fun h => by simp at h, ?_⟩
        obtain ⟨l, hl⟩ := runCreateLoop_issued_ext allOk (mkId e.remote.nextId) tags
          ⟨applyWrite e.remote (RemoteOp.createDemo fd), e.calls + 1,
            e.issued ++ [RemoteOp.createDemo fd]⟩
        rw [hl]
        exact List.prefix_append _ l
  | some eid0 =>
      rcases hf : f e.calls with _ | m
      · -- the update call succeeds in both runs
        rw [submitTry, doCall_ok (schedOfFail f) _ e (by simp [schedOfFail, hf]),
          submitTry, doCall_ok allOk _ e rfl]
        dsimp only
        rcases hf1 : f (e.calls + 1) with _ | m1
        · -- the list call succeeds in both runs
          rw [doCall_ok (schedOfFail f) _ _ (by simp [schedOfFail, hf1]),
            doCall_ok allOk _ _ rfl]
          dsimp only
          rcases hdel : runDelLoop (schedOfFail f)
              (listDemoTagsOf (applyWrite (applyWrite e.remote
                (RemoteOp.updateDemo eid0 fd)) (RemoteOp.listDemoTags eid0)) eid0)
              ⟨applyWrite (applyWrite e.remote (RemoteOp.updateDemo eid0 fd))
                  (RemoteOp.listDemoTags eid0),
                e.calls + 1 + 1,
                e.issued ++ [RemoteOp.updateDemo eid0 fd] ++ [RemoteOp.listDemoTags eid0]⟩
            with ⟨e3f, r3⟩
          have hpre := runDelLoop_prefix f
            (listDemoTagsOf (applyWrite (applyWrite e.remote
              (RemoteOp.updateDemo eid0 fd)) (RemoteOp.listDemoTags eid0)) eid0)
            ⟨applyWrite (applyWrite e.remote (RemoteOp.updateDemo eid0 fd))
                (RemoteOp.listDemoTags eid0),
              e.calls + 1 + 1,
              e.issued ++ [RemoteOp.updateDemo eid0 fd] ++ [RemoteOp.listDemoTags eid0]⟩
          rw [hdel] at hpre
          rcases hdelok : runDelLoop allOk
              (listDemoTagsOf (applyWrite (applyWrite e.remote
                (RemoteOp.updateDemo eid0 fd)) (RemoteOp.listDemoTags eid0)) eid0)
              ⟨applyWrite (applyWrite e.remote (RemoteOp.updateDemo eid0 fd))
                  (RemoteOp.listDemoTags eid0),
                e.calls + 1 + 1,
                e.issued ++ [RemoteOp.updateDemo eid0 fd] ++ [RemoteOp.listDemoTags eid0]⟩
            with ⟨e3o, r3o⟩
          have hsnd := runDelLoop_allOk_snd
            (listDemoTagsOf (applyWrite (applyWrite e.remote
              (RemoteOp.updateDemo eid0 fd)) (RemoteOp.listDemoTags eid0)) eid0)
            ⟨applyWrite (applyWrite e.remote (RemoteOp.updateDemo eid0 fd))
                (RemoteOp.listDemoTags eid0),
              e.calls + 1 + 1,
              e.issued ++ [RemoteOp.updateDemo eid0 fd] ++ [RemoteOp.listDemoTags eid0]⟩
          rw [hdelok] at hsnd hpre
          dsimp only at hsnd
          subst hsnd
          cases r3 with
          | some m3 =>
              dsimp only
              refine ⟨fun h => by simp at h, ?_⟩
              obtain ⟨l4, hl4⟩ := runCreateLoop_issued_ext allOk eid0 tags e3o
              rw [hl4]
              exact (hpre.2).trans (List.prefix_append _ l4)
          | none =>
              have heq := hpre.1 rfl
              have he3 : e3f = e3o := congrArg Prod.fst heq
              subst he3
              dsimp only
              exact runCreateLoop_prefix f eid0 tags e3f
        · -- the list call rejects in the failing run
          rw [doCall_fail (schedOfFail f) _ _ m1 (by simp [schedOfFail, hf1]),
            doCall_ok allOk _ _ rfl]
          dsimp only
          refine ⟨fun h => by simp at h, ?_⟩
          rcases hdelok : runDelLoop allOk
              (listDemoTagsOf (applyWrite (applyWrite e.remote
                (RemoteOp.updateDemo eid0 fd)) (RemoteOp.listDemoTags eid0)) eid0)
              ⟨applyWrite (applyWrite e.remote (RemoteOp.updateDemo eid0 fd))
                  (RemoteOp.listDemoTags eid0),
                e.calls + 1 + 1,
                e.issued ++ [RemoteOp.updateDemo eid0 fd] ++ [RemoteOp.listDemoTags eid0]⟩
            with ⟨e3o, r3o⟩
          have hsnd := runDelLoop_allOk_snd
            (listDemoTagsOf (applyWrite (applyWrite e.remote
              (RemoteOp.updateDemo eid0 fd)) (RemoteOp.listDemoTags eid0)) eid0)
            ⟨applyWrite (applyWrite e.remote (RemoteOp.updateDemo eid0 fd))
                (RemoteOp.listDemoTags eid0),
              e.calls + 1 + 1,
              e.issued ++ [RemoteOp.updateDemo eid0 fd] ++ [RemoteOp.listDemoTags eid0]⟩
          rw [hdelok] at hsnd
          dsimp only at hsnd
          subst hsnd
          dsimp only
          obtain ⟨l3, hl3⟩ := runDelLoop_issued_ext allOk
            (listDemoTagsOf (applyWrite (applyWrite e.remote
              (RemoteOp.updateDemo eid0 fd)) (RemoteOp.listDemoTags eid0)) eid0)
            ⟨applyWrite (applyWrite e.remote (RemoteOp.updateDemo eid0 fd))
                (RemoteOp.listDemoTags eid0),
              e.calls + 1 + 1,
              e.issued ++ [RemoteOp.updateDemo eid0 fd] ++ [RemoteOp.listDemoTags eid0]⟩
          rw [hdelok] at hl3
          dsimp only at hl3
          obtain ⟨l4, hl4⟩ := runCreateLoop_issued_ext allOk eid0 tags e3o
          rw [hl4, hl3]
          simp only [List.append_assoc]
          exact isPre_append_left _ (isPre_append_left _ (List.prefix_append _ _))
      · -- the update call rejects in the failing run
        rw [submitTry, doCall_fail (schedOfFail f) _ e m (by simp [schedOfFail, hf]),
          submitTry, doCall_ok allOk _ e rfl]
        dsimp only
        refine ⟨fun h => by simp at h, ?_⟩
        rw [doCall_ok allOk _ _ rfl]
        dsimp only
        rcases hdelok : runDelLoop allOk
            (listDemoTagsOf (applyWrite (applyWrite e.remote
              (RemoteOp.updateDemo eid0 fd)) (RemoteOp.listDemoTags eid0)) eid0)
            ⟨applyWrite (applyWrite e.remote (RemoteOp.updateDemo eid0 fd))
                (RemoteOp.listDemoTags eid0),
              e.calls + 1 + 1,
              e.issued ++ [RemoteOp.updateDemo eid0 fd] ++ [RemoteOp.listDemoTags eid0]⟩
          with ⟨e3o, r3o⟩
        have hsnd := runDelLoop_allOk_snd
          (listDemoTagsOf (applyWrite (applyWrite e.remote
            (RemoteOp.updateDemo eid0 fd)) (RemoteOp.listDemoTags eid0)) eid0)
          ⟨applyWrite (applyWrite e.remote (RemoteOp.updateDemo eid0 fd))
              (RemoteOp.listDemoTags eid0),
            e.calls + 1 + 1,
            e.issued ++ [RemoteOp.updateDemo eid0 fd] ++ [RemoteOp.listDemoTags eid0]⟩
        rw [hdelok] at hsnd
        dsimp only at hsnd
        subst hsnd
        dsimp only
        obtain ⟨l3, hl3⟩ := runDelLoop_issued_ext allOk
          (listDemoTagsOf (applyWrite (applyWrite e.remote
            (RemoteOp.updateDemo eid0 fd)) (RemoteOp.listDemoTags eid0)) eid0)
          ⟨applyWrite (applyWrite e.remote (RemoteOp.updateDemo eid0 fd))
              (RemoteOp.listDemoTags eid0),
            e.calls + 1 + 1,
            e.issued ++ [RemoteOp.updateDemo eid0 fd] ++ [RemoteOp.listDemoTags eid0]⟩
        rw [hdelok] at hl3
        dsimp only at hl3
        obtain ⟨l4, hl4⟩ := runCreateLoop_issued_ext allOk eid0 tags e3o
        rw [hl4, hl3]
        simp only [List.append_assoc]
        exact isPre_append_left _ (List.prefix_append _ _)

/-- Against a failure-only schedule the delete try block either completes
exactly as on the all-success schedule, or stops at the first rejection
having issued a prefix of the all-success call sequence. -/
theorem deleteTry_prefix_aux (f : Nat → Option String) (i : String) (e : Exec) :
    ((deleteTry (schedOfFail f) i e).2 = none →
      deleteTry (schedOfFail f) i e = deleteTry allOk i e) ∧
    List.IsPrefix (deleteTry (schedOfFail f) i e).1.issued
      (deleteTry allOk i e).1.issued := by
  rcases hf : f e.calls with _ | m
  · -- the list call succeeds in both runs
    rw [deleteTry, doCall_ok (schedOfFail f) _ e (by simp [schedOfFail, hf]),
      deleteTry, doCall_ok allOk _ e rfl]
    dsimp only
    rcases hdel : runDelLoop (schedOfFail f)
        (listDemoTagsOf (applyWrite e.remote (RemoteOp.listDemoTags i)) i)
        ⟨applyWrite e.remote (RemoteOp.listDemoTags i), e.calls + 1,
          e.issued ++ [RemoteOp.listDemoTags i]⟩ with ⟨e3f, r3⟩
    have hpre := runDelLoop_prefix f
      (listDemoTagsOf (applyWrite e.remote (RemoteOp.listDemoTags i)) i)
      ⟨applyWrite e.remote (RemoteOp.listDemoTags i), e.calls + 1,
        e.issued ++ [RemoteOp.listDemoTags i]⟩
    rw [hdel] at hpre
    rcases hdelok : runDelLoop allOk
        (listDemoTagsOf (applyWrite e.remote (RemoteOp.listDemoTags i)) i)
        ⟨applyWrite e.remote (RemoteOp.listDemoTags i), e.calls + 1,
          e.issued ++ [RemoteOp.listDemoTags i]⟩ with ⟨e3o, r3o⟩
    have hsnd := runDelLoop_allOk_snd
      (listDemoTagsOf (applyWrite e.remote (RemoteOp.listDemoTags i)) i)
      ⟨applyWrite e.remote (RemoteOp.listDemoTags i), e.calls + 1,
        e.issued ++ [RemoteOp.listDemoTags i]⟩
    rw [hdelok] at hsnd hpre
    dsimp only at hsnd
    subst hsnd
    cases r3 with
    | some m3 =>
        dsimp only
        refine ⟨fun h => by simp at h, ?_⟩
        rw [doCall_ok allOk _ _ rfl]
        dsimp only
        refine (hpre.2).trans ?_
        exact List.prefix_append _ _
    | none =>
        have heq := hpre.1 rfl
        have he3 : e3f = e3o := congrArg Prod.fst heq
        subst he3
        dsimp only
        rcases hf2 : f e3f.calls with _ | m2
        · rw [doCall_ok (schedOfFail f) _ _ (by simp [schedOfFail, hf2]),
            doCall_ok allOk _ _ rfl]
          exact ⟨fun _ => rfl, List.prefix_refl _⟩
        · rw [doCall_fail (schedOfFail f) _ _ m2 (by simp [schedOfFail, hf2]),
            doCall_ok allOk _ _ rfl]
          dsimp only
          exact ⟨fun h => by simp at h, List.prefix_refl _⟩
  · -- the list call rejects in the failing run
    rw [deleteTry, doCall_fail (schedOfFail f) _ e m (by simp [schedOfFail, hf]),
      deleteTry, doCall_ok allOk _ e rfl]
    dsimp only
    refine ⟨fun h => by simp at h, ?_⟩
    rcases hdelok : runDelLoop allOk
        (listDemoTagsOf (applyWrite e.remote (RemoteOp.listDemoTags i)) i)
        ⟨applyWrite e.remote (RemoteOp.listDemoTags i), e.calls + 1,
          e.issued ++ [RemoteOp.listDemoTags i]⟩ with ⟨e3o, r3o⟩
    have hsnd := runDelLoop_allOk_snd
      (listDemoTagsOf (applyWrite e.remote (RemoteOp.listDemoTags i)) i)
      ⟨applyWrite e.remote (RemoteOp.listDemoTags i), e.calls + 1,
        e.issued ++ [RemoteOp.listDemoTags i]⟩
    rw [hdelok] at hsnd
    dsimp only at hsnd
    subst hsnd
    dsimp only
    obtain ⟨l3, hl3⟩ := runDelLoop_issued_ext allOk
      (listDemoTagsOf (applyWrite e.remote (RemoteOp.listDemoTags i)) i)
      ⟨applyWrite e.remote (RemoteOp.listDemoTags i), e.calls + 1,
        e.issued ++ [RemoteOp.listDemoTags i]⟩
    rw [hdelok] at hl3
    dsimp only at hl3
    rw [doCall_ok allOk _ _ rfl]
    dsimp only
    rw [hl3]
    simp only [List.append_assoc]
    exact isPre_append_left _ (List.prefix_append _ _)

theorem submit_allOk_issued_nodup (eid : Option String) (fd : DemoFields)
    (tags : List String) (st : RemoteState)
    (hids : (st.demoTags.map (fun a => a.id)).Nodup) (htags : tags.Nodup) :
    (submitTry allOk eid fd tags ⟨st, 0, []⟩).1.issued.Nodup := by
  cases eid with
  | none =>
      rw [submitTry_allOk_create]
      dsimp only
      rw [List.nodup_cons]
      refine ⟨by simp, ?_⟩
      exact List.Nodup.map (fun a b h => by simpa using h) htags
  | some eid0 =>
      rw [submitTry_allOk_edit]
      dsimp only
      rw [List.nodup_cons, List.nodup_cons]
      refine ⟨by simp, by simp, ?_⟩
      rw [List.nodup_append]
      refine ⟨?_, ?_, ?_⟩
      · have hsub : List.Sublist ((listDemoTagsOf st eid0).map (fun a => a.id))
            (st.demoTags.map (fun a => a.id)) :=
          List.Sublist.map _ (List.filter_sublist st.demoTags)
        have hidsn : ((listDemoTagsOf st eid0).map (fun a => a.id)).Nodup :=
          hids.sublist hsub
        have h := List.Nodup.map
          (f := RemoteOp.delDemoTag) (fun a b h => by simpa using h) hidsn
        simpa [List.map_map, Function.comp] using h
      · exact List.Nodup.map (fun a b h => by simpa using h) htags
      · intro x hx hy
        simp only [List.mem_map] at hx hy
        obtain ⟨a, -, rfl⟩ := hx
        obtain ⟨b, -, hb⟩ := hy
        exact absurd hb (by simp)

theorem delete_allOk_issued_nodup (i : String) (st : RemoteState)
    (hids : (st.demoTags.map (fun a => a.id)).Nodup) :
    (deleteTry allOk i ⟨st, 0, []⟩).1.issued.Nodup := by
  rw [deleteTry_allOk]
  dsimp only
  rw [List.nodup_cons]
  refine ⟨by simp, ?_⟩
  rw [List.nodup_append]
  refine ⟨?_, by simp, ?_⟩
  · have hsub : List.Sublist ((listDemoTagsOf st i).map (fun a => a.id))
        (st.demoTags.map (fun a => a.id)) :=
      List.Sublist.map _ (List.filter_sublist st.demoTags)
    have hidsn : ((listDemoTagsOf st i).map (fun a => a.id)).Nodup :=
      hids.sublist hsub
    have h := List.Nodup.map
      (f := RemoteOp.delDemoTag) (fun a b h => by simpa using h) hidsn
    simpa [List.map_map, Function.comp] using h
  · intro x hx hy
    simp only [List.mem_map] at hx
    obtain ⟨a, -, rfl⟩ := hx
    simp at hy

theorem handleSubmit_exec_eq (sched : Nat → CallOutcome) (eid : Option String)
    (fd : DemoFields) (tags : List String) (dbg : String) (st : RemoteState)
    (hval : validateForm fd tags = true) :
    (handleSubmit sched true eid fd tags dbg st).exec =
      (submitTry sched eid fd tags ⟨st, 0, []⟩).1 := by
  rw [handleSubmit_valid sched eid fd tags dbg st hval]
  rcases submitTry sched eid fd tags ⟨st, 0, []⟩ with ⟨e, r⟩
  cases r <;> rfl

theorem deleteDemo_confirmed (sched : Nat → CallOutcome) (dbg : String)
    (st : RemoteState) (i : String) :
    deleteDemo sched true true dbg st i =
      match deleteTry sched i ⟨st, 0, []⟩ with
      | (e, none) => ⟨e, dbg⟩
      | (e, some m) => ⟨e, "Error deleting demo: " ++ m⟩ := by
  simp [deleteDemo]

theorem deleteDemo_exec_eq (sched : Nat → CallOutcome) (dbg : String)
    (st : RemoteState) (i : String) :
    (deleteDemo sched true true dbg st i).exec =
      (deleteTry sched i ⟨st, 0, []⟩).1 := by
  rw [deleteDemo_confirmed]
  rcases deleteTry sched i ⟨st, 0, []⟩ with ⟨e, r⟩
  cases r <;> rfl

/-- C6 counterexample: with the debug log holding "X", a rejected create
sets the debug log to the error text alone; the message is not appended to
the existing log content, refuting the appended-to wording of C6. -/
theorem handleSubmit_error_replaces_debug :
    (handleSubmit (schedOfFail fun n => if n = 0 then some "boom" else none) true none
      ⟨"x", "x", "x", "x"⟩ ["a"] "X" ⟨[], [], 0⟩).debugInfo =
      "Error in form submit: boom" ∧
    ¬ ∃ s : String,
      (handleSubmit (schedOfFail fun n => if n = 0 then some "boom" else none) true none
        ⟨"x", "x", "x", "x"⟩ ["a"] "X" ⟨[], [], 0⟩).debugInfo = "X" ++ s := by
  constructor
  · decide
  · rintro ⟨s, hs⟩
    have h2 : (handleSubmit (schedOfFail fun n => if n = 0 then some "boom" else none)
        true none ⟨"x", "x", "x", "x"⟩ ["a"] "X" ⟨[], [], 0⟩).debugInfo.data =
        "X".data ++ s.data := by
      rw [hs, String.data_append]
    have h3 : (handleSubmit (schedOfFail fun n => if n = 0 then some "boom" else none)
        true none ⟨"x", "x", "x", "x"⟩ ["a"] "X" ⟨[], [], 0⟩).debugInfo.data =
        'E' :: "rror in form submit: boom".data := by decide
    have h4 : ("X").data = ['X'] := by decide
    rw [h3, h4, List.singleton_append] at h2
    injection h2 with h5 h6
    exact absurd h5 (by decide)

/-- C6 (amended): for every failing remote step of the save or delete
workflow the exception is caught (the invocation yields a result), the
error message is written to the debug log, replacing its previous content,
no remote call is issued twice, and the calls issued form a prefix of the
all-success call sequence — completed steps are neither reverted nor
compensated. -/
theorem workflows_failure_semantics (f : Nat → Option String) (eid : Option String)
    (fd : DemoFields) (tags : List String) (dbg : String) (st : RemoteState)
    (i : String)
    (hids : (st.demoTags.map (fun a => a.id)).Nodup) (htags : tags.Nodup) :
    List.IsPrefix (handleSubmit (schedOfFail f) true eid fd tags dbg st).exec.issued
      (handleSubmit allOk true eid fd tags dbg st).exec.issued ∧
    (handleSubmit (schedOfFail f) true eid fd tags dbg st).exec.issued.Nodup ∧
    (∀ m, (submitTry (schedOfFail f) eid fd tags ⟨st, 0, []⟩).2 = some m →
      validateForm fd tags = true →
      (handleSubmit (schedOfFail f) true eid fd tags dbg st).debugInfo =
        "Error in form submit: " ++ m) ∧
    List.IsPrefix (deleteDemo (schedOfFail f) true true dbg st i).exec.issued
      (deleteDemo allOk true true dbg st i).exec.issued ∧
    (deleteDemo (schedOfFail f) true true dbg st i).exec.issued.Nodup ∧
    (∀ m, (deleteTry (schedOfFail f) i ⟨st, 0, []⟩).2 = some m →
      (deleteDemo (schedOfFail f) true true dbg st i).debugInfo =
        "Error deleting demo: " ++ m) := by
  refine ⟨?_, ?_, ?_, ?_, ?_, ?_⟩
  · by_cases hval : validateForm fd tags = true
    · rw [handleSubmit_exec_eq (schedOfFail f) eid fd tags dbg st hval,
        handleSubmit_exec_eq allOk eid fd tags dbg st hval]
      exact (submitTry_prefix_aux f eid fd tags ⟨st, 0, []⟩).2
    · have hv : validateForm fd tags = false := by
        revert hval
        cases validateForm fd tags <;> simp
      rw [handleSubmit_invalid (schedOfFail f) true eid fd tags dbg st hv,
        handleSubmit_invalid allOk true eid fd tags dbg st hv]
  · by_cases hval : validateForm fd tags = true
    · rw [handleSubmit_exec_eq (schedOfFail f) eid fd tags dbg st hval]
      exact (submit_allOk_issued_nodup eid fd tags st hids htags).sublist
        ((submitTry_prefix_aux f eid fd tags ⟨st, 0, []⟩).2.sublist)
    · have hv : validateForm fd tags = false := by
        revert hval
        cases validateForm fd tags <;> simp
      rw [handleSubmit_invalid (schedOfFail f) true eid fd tags dbg st hv]
      simp
  · intro m hm hval
    rw [handleSubmit_valid (schedOfFail f) eid fd tags dbg st hval]
    rcases hs : submitTry (schedOfFail f) eid fd tags ⟨st, 0, []⟩ with ⟨e2, r⟩
    rw [hs] at hm
    cases r with
    | none => simp at hm
    | some m2 =>
        obtain rfl : m2 = m := by simpa using hm
        rfl
  · rw [deleteDemo_exec_eq (schedOfFail f) dbg st i,
      deleteDemo_exec_eq allOk dbg st i]
    exact (deleteTry_prefix_aux f i ⟨st, 0, []⟩).2
  · rw [deleteDemo_exec_eq (schedOfFail f) dbg st i]
    exact (delete_allOk_issued_nodup i st hids).sublist
      ((deleteTry_prefix_aux f i ⟨st, 0, []⟩).2.sublist)
  · intro m hm
    rw [deleteDemo_confirmed (schedOfFail f) dbg st i]
    rcases hs : deleteTry (schedOfFail f) i ⟨st, 0, []⟩ with ⟨e2, r⟩
    rw [hs] at hm
    cases r with
    | none => simp at hm
    | some m2 =>
        obtain rfl : m2 = m := by simpa using hm
        rfl

/-- Witness for the amended C6 at a concrete store, schedule and selection. -/
theorem workflows_failure_semantics_witness :
    (([(⟨"r1", "d1", "a"⟩ : DemoTagRow)].map (fun a => a.id)).Nodup) ∧
    ((["a"] : List String).Nodup) ∧
    (List.IsPrefix (handleSubmit (schedOfFail (fun n => if n = 0 then some "boom" else none)) true none (⟨"x", "x", "x", "x"⟩ : DemoFields) ["a"] "X" (⟨[], [⟨"r1", "d1", "a"⟩], 0⟩ : RemoteState)).exec.issued (handleSubmit allOk true none (⟨"x", "x", "x", "x"⟩ : DemoFields) ["a"] "X" (⟨[], [⟨"r1", "d1", "a"⟩], 0⟩ : RemoteState)).exec.issued ∧
    (handleSubmit (schedOfFail (fun n => if n = 0 then some "boom" else none)) true none (⟨"x", "x", "x", "x"⟩ : DemoFields) ["a"] "X" (⟨[], [⟨"r1", "d1", "a"⟩], 0⟩ : RemoteState)).exec.issued.Nodup ∧
    (∀ m, (submitTry (schedOfFail (fun n => if n = 0 then some "boom" else none)) none (⟨"x", "x", "x", "x"⟩ : DemoFields) ["a"]
        ⟨(⟨[], [⟨"r1", "d1", "a"⟩], 0⟩ : RemoteState), 0, []⟩).2 = some m →
      validateForm (⟨"x", "x", "x", "x"⟩ : DemoFields) ["a"] = true →
      (handleSubmit (schedOfFail (fun n => if n = 0 then some "boom" else none)) true none (⟨"x", "x", "x", "x"⟩ : DemoFields) ["a"] "X" (⟨[], [⟨"r1", "d1", "a"⟩], 0⟩ : RemoteState)).debugInfo = "Error in form submit: " ++ m) ∧
    List.IsPrefix (deleteDemo (schedOfFail (fun n => if n = 0 then some "boom" else none)) true true "X" (⟨[], [⟨"r1", "d1", "a"⟩], 0⟩ : RemoteState) "d1").exec.issued (deleteDemo allOk true true "X" (⟨[], [⟨"r1", "d1", "a"⟩], 0⟩ : RemoteState) "d1").exec.issued ∧
    (deleteDemo (schedOfFail (fun n => if n = 0 then some "boom" else none)) true true "X" (⟨[], [⟨"r1", "d1", "a"⟩], 0⟩ : RemoteState) "d1").exec.issued.Nodup ∧
    (∀ m, (deleteTry (schedOfFail (fun n => if n = 0 then some "boom" else none)) "d1" ⟨(⟨[], [⟨"r1", "d1", "a"⟩], 0⟩ : RemoteState), 0, []⟩).2 = some m →
      (deleteDemo (schedOfFail (fun n => if n = 0 then some "boom" else none)) true true "X" (⟨[], [⟨"r1", "d1", "a"⟩], 0⟩ : RemoteState) "d1").debugInfo = "Error deleting demo: " ++ m)) :=
  ⟨by decide, by decide,
   workflows_failure_semantics (fun n => if n = 0 then some "boom" else none) none (⟨"x", "x", "x", "x"⟩ : DemoFields) ["a"] "X" (⟨[], [⟨"r1", "d1", "a"⟩], 0⟩ : RemoteState) "d1"
     (by decide) (by decide)⟩

/-- C9: starting unauthenticated, the login succeeds exactly when the
submitted username matches an allow-list username case-insensitively and
the password matches that user's password exactly; on success the matched
username is stored under the key "demo_catalog_user" and no other storage
key changes; on failure the user stays unauthenticated, storage is
untouched, and the error message is set. -/
theorem handleLogin_spec (st : LoginState) (hauth : st.isAuthenticated = false) :
    ((handleLogin st).isAuthenticated = true ↔
      ∃ u ∈ validUsers, lowerList u.1 = lowerList st.loginUsername ∧
        u.2 = st.loginPassword) ∧
    (∀ u, validUsers.find? (fun u =>
        (lowerList u.1 == lowerList st.loginUsername) &&
          (u.2 == st.loginPassword)) = some u →
      (handleLogin st).currentUser = u.1 ∧
      (handleLogin st).storage "demo_catalog_user" = some u.1 ∧
      ∀ k, k ≠ "demo_catalog_user" → (handleLogin st).storage k = st.storage k) ∧
    ((handleLogin st).isAuthenticated = false →
      (handleLogin st).storage = st.storage ∧
      (handleLogin st).currentUser = st.currentUser ∧
      (handleLogin st).loginError = "Usuario o contraseña incorrectos") := by
  rcases hfind : validUsers.find? (fun u =>
      (lowerList u.1 == lowerList st.loginUsername) && (u.2 == st.loginPassword))
    with _ | u
  · rw [handleLogin, hfind]
    refine ⟨?_, ?_, ?_⟩
    · dsimp only
      rw [hauth]
      constructor
      · intro h
        simp at h
      · rintro ⟨u, hu, h1, h2⟩
        have := List.find?_eq_none.mp hfind u hu
        simp [h1, h2] at this
    · intro u h
      exact absurd h (by simp)
    · intro _
      exact ⟨rfl, rfl, rfl⟩
  · rw [handleLogin, hfind]
    refine ⟨?_, ?_, ?_⟩
    · dsimp only
      constructor
      · intro _
        refine ⟨u, List.mem_of_find?_eq_some hfind, ?_⟩
        have h := List.find?_some hfind
        rw [Bool.and_eq_true, beq_iff_eq, beq_iff_eq] at h
        exact h
      · intro _
        rfl
    · intro u' h
      obtain rfl : u = u' := by simpa using h
      refine ⟨rfl, by simp, ?_⟩
      intro k hk
      simp [hk]
    · intro hpost
      simp at hpost

/-- Witness for C9 at a concrete unauthenticated state with an upper-case
username and the first allow-list password. -/
theorem handleLogin_spec_witness :
    (⟨false, "", "", "RODES", "remr020605", fun _ => none⟩ : LoginState).isAuthenticated = false ∧
    (((handleLogin (⟨false, "", "", "RODES", "remr020605", fun _ => none⟩ : LoginState)).isAuthenticated = true ↔
      ∃ u ∈ validUsers, lowerList u.1 = lowerList (⟨false, "", "", "RODES", "remr020605", fun _ => none⟩ : LoginState).loginUsername ∧
        u.2 = (⟨false, "", "", "RODES", "remr020605", fun _ => none⟩ : LoginState).loginPassword) ∧
    (∀ u, validUsers.find? (fun u =>
        (lowerList u.1 == lowerList (⟨false, "", "", "RODES", "remr020605", fun _ => none⟩ : LoginState).loginUsername) &&
          (u.2 == (⟨false, "", "", "RODES", "remr020605", fun _ => none⟩ : LoginState).loginPassword)) = some u →
      (handleLogin (⟨false, "", "", "RODES", "remr020605", fun _ => none⟩ : LoginState)).currentUser = u.1 ∧
      (handleLogin (⟨false, "", "", "RODES", "remr020605", fun _ => none⟩ : LoginState)).storage "demo_catalog_user" = some u.1 ∧
      ∀ k, k ≠ "demo_catalog_user" →
        (handleLogin (⟨false, "", "", "RODES", "remr020605", fun _ => none⟩ : LoginState)).storage k = (⟨false, "", "", "RODES", "remr020605", fun _ => none⟩ : LoginState).storage k) ∧
    ((handleLogin (⟨false, "", "", "RODES", "remr020605", fun _ => none⟩ : LoginState)).isAuthenticated = false →
      (handleLogin (⟨false, "", "", "RODES", "remr020605", fun _ => none⟩ : LoginState)).storage = (⟨false, "", "", "RODES", "remr020605", fun _ => none⟩ : LoginState).storage ∧
      (handleLogin (⟨false, "", "", "RODES", "remr020605", fun _ => none⟩ : LoginState)).currentUser = (⟨false, "", "", "RODES", "remr020605", fun _ => none⟩ : LoginState).currentUser ∧
      (handleLogin (⟨false, "", "", "RODES", "remr020605", fun _ => none⟩ : LoginState)).loginError = "Usuario o contraseña incorrectos")) :=
  ⟨rfl, handleLogin_spec (⟨false, "", "", "RODES", "remr020605", fun _ => none⟩ : LoginState) rfl⟩
